import Mathlib

/-!
# nject: memoization cache, provider annotations, collections and callbacks

A shallow embedding of `src/nject/cache.go`, of the parts of `src/nject/api.go`
that the verified properties are about, and of `combineMiddleware` and the panic
errors of `src/nvelope`.

Modelling conventions:

* a Go `interface{}` value is an `Iface`; a `reflect.Value` is a `Value`, an
  `Iface` together with the read-only flag that `CanInterface` tests;
* floating-point values are not part of the value model, so on hashable values
  Go's `==` is structural equality;
* a run-time panic is an `Except.error`;
* the function wrapped by a cacher (`fv.Call`) may be stateful: its output may
  depend on the log of its earlier invocations, and every invocation is
  appended to that log. It is modelled as returning normally;
* the mutex in `defineCacher` serialises the calls; the model is sequential;
* chains of errors (`Cause`, `Unwrap`) are finite.
-/

namespace Nject

/-! ## Values -/

/-- Dynamic content of a Go `interface{}` value. Slices, maps and functions
are the kinds Go cannot hash or compare. -/
inductive Iface where
  | nil
  | bool (b : Bool)
  | int (n : Int)
  | str (s : String)
  | ptr (addr : Nat)
  | slice (addr : Nat) (len : Nat)
  | gomap (addr : Nat)
  | func (addr : Nat)
  deriving DecidableEq, Repr

/-- Whether Go can hash the dynamic value (use it inside a map key). -/
def Iface.hashable : Iface → Bool
  | .slice _ _ => false
  | .gomap _ => false
  | .func _ => false
  | _ => true

/-- A `reflect.Value`: the value it holds and `flagRO`, set when the value was
reached through an unexported struct field. -/
structure Value where
  val : Iface
  ro : Bool
  deriving DecidableEq, Repr

/-- Run-time panics the cache code can raise. -/
inductive Panic where
  | cannotInterface
  | indexOutOfRange
  | unhashable
  deriving DecidableEq, Repr

/-- `reflect.Value.CanInterface`. -/
def Value.CanInterface (v : Value) : Bool := !v.ro

/-- `reflect.Value.Interface`: panics on a read-only value. -/
def Value.Interface (v : Value) : Except Panic Iface :=
  if v.ro then .error .cannotInterface else .ok v.val

/-! ## Go maps keyed by arrays of interfaces -/

/-- A key of type `[n]interface{}`. -/
abbrev Key := List Iface

/-- A `map[inN][]reflect.Value`, as the list of its entries. -/
abbrev GoMap := List (Key × List Value)

/-- Hashing an array of interfaces succeeds when every element is hashable. -/
def keyHashable (k : Key) : Bool := k.all Iface.hashable

/-- The lookup `out, found := cache[key]`. Hashing the key panics when it holds
an unhashable value, also on an empty map. -/
def mapLookup (m : GoMap) (k : Key) : Except Panic (Option (List Value)) :=
  if keyHashable k then .ok ((m.find? (fun e => e.1 == k)).map (fun e => e.2))
  else .error .unhashable

/-- The assignment `cache[key] = out`. -/
def mapStore (m : GoMap) (k : Key) (out : List Value) : Except Panic GoMap :=
  if keyHashable k then
    if m.any (fun e => e.1 == k) then
      .ok (m.map (fun e => if e.1 == k then (e.1, out) else e))
    else .ok (m ++ [(k, out)])
  else .error .unhashable

/-! ## cache.go -/

/-- `interfaceOkay`: every input can be turned into an interface. -/
def interfaceOkay : List Value → Bool
  | [] => true
  | input :: rest => if !input.CanInterface then false else interfaceOkay rest

/-- First loop of `fillKeyFromInputs`: `key[i] = v.Interface()` for the inputs
from position `i` on. -/
def fillInputs : List Iface → Nat → List Value → Except Panic (List Iface)
  | key, _, [] => .ok key
  | key, i, v :: rest =>
    match v.Interface with
    | .error p => .error p
    | .ok x =>
      if i < key.length then fillInputs (key.set i x) (i + 1) rest
      else .error .indexOutOfRange

/-- Second loop of `fillKeyFromInputs`: `key[i] = ""` while `i < len(key)`.
The first argument bounds the number of iterations. -/
def fillRest : Nat → List Iface → Nat → List Iface
  | 0, key, _ => key
  | fuel + 1, key, i =>
    if i < key.length then fillRest fuel (key.set i (.str "")) (i + 1) else key

/-- `fillKeyFromInputs(key, in)`; the result is the key slice after the call. -/
def fillKeyFromInputs (key : List Iface) (inp : List Value) : Except Panic (List Iface) :=
  match fillInputs key 0 inp with
  | .error p => .error p
  | .ok key1 => .ok (fillRest key1.length key1 inp.length)

/-- The wrapped function `fv.Call`: its output given the log of its earlier
invocations and the inputs of this one. -/
abbrev CanCall := List (List Value) → List Value → List Value

/-- What a cacher closure can change: its captured `cache` map and the log of
the invocations of the wrapped function. -/
structure CacheState where
  cache : GoMap
  calls : List (List Value)
  deriving DecidableEq, Repr

/-- Outcome of one cacher call: the returned values or the panic. -/
abbrev Outcome := Except Panic (List Value)

/-- The zero value of `[n]interface{}` (`var key inN`). -/
def zeroKey (n : Nat) : Key := List.replicate n Iface.nil

/-- The closure `func(in []reflect.Value) []reflect.Value { return fv.Call(in) }`. -/
def directCall (fv : CanCall) (st : CacheState) (inp : List Value) : Outcome × CacheState :=
  (.ok (fv st.calls inp), { st with calls := st.calls ++ [inp] })

/-- The closure returned by the caching branches of `defineCacher`, for a key
array of `n` slots. -/
def cachedCall (n : Nat) (fv : CanCall) (st : CacheState) (inp : List Value) :
    Outcome × CacheState :=
  if !interfaceOkay inp then
    (.ok (fv st.calls inp), { st with calls := st.calls ++ [inp] })
  else
    match fillKeyFromInputs (zeroKey n) inp with
    | .error p => (.error p, st)
    | .ok key =>
      match mapLookup st.cache key with
      | .error p => (.error p, st)
      | .ok (some out) => (.ok out, st)
      | .ok none =>
        let out := fv st.calls inp
        match mapStore st.cache key out with
        | .error p => (.error p, { st with calls := st.calls ++ [inp] })
        | .ok m => (.ok out, { cache := m, calls := st.calls ++ [inp] })

/-- What `defineCacher` yields: the closure and the diagnostics it printed. -/
structure Defined where
  call : CacheState → List Value → Outcome × CacheState
  debug : List String

/-- Modelled from the spec: `debugf` is not among the sources; it reports on a
diagnostic channel, here the list of messages, and is no error. -/
def debugf (msg : String) (l : Int) : List String := [msg ++ toString l]

/-- `defineCacher(id, fv, l)`. -/
def defineCacher (_id : Int) (fv : CanCall) (l : Int) : Defined :=
  if l ≤ 3 then { call := cachedCall 3 fv, debug := [] }
  else if l ≤ 10 then { call := cachedCall 10 fv, debug := [] }
  else if l ≤ 30 then { call := cachedCall 30 fv, debug := [] }
  else if l ≤ 90 then { call := cachedCall 90 fv, debug := [] }
  else { call := directCall fv, debug := debugf "number of arguments exceeds maximum!  " l }

/-- State of a cacher right after `defineCacher`: an empty map. -/
def freshState (calls : List (List Value)) : CacheState := { cache := [], calls := calls }

/-- Runs a sequence of calls; for each call the outcome and the invocation log
after it, and the final state. -/
def runCalls (call : CacheState → List Value → Outcome × CacheState) :
    CacheState → List (List Value) → List (Outcome × List (List Value)) × CacheState
  | st, [] => ([], st)
  | st, inp :: rest =>
    let r := call st inp
    let t := runCalls call r.2 rest
    ((r.1, r.2.calls) :: t.1, t.2)

/-! ## Helpers for stating the properties -/

/-- Closed form of the key `fillKeyFromInputs` builds in an `n`-slot array: the
interface values of the inputs, then empty strings. -/
def paddedKey (n : Nat) (inp : List Value) : Key :=
  inp.map Value.val ++ List.replicate (n - inp.length) (Iface.str "")

/-- Number of key slots of the branch `defineCacher` takes for `l ≤ 90`. -/
def tierSize (l : Int) : Nat :=
  if l ≤ 3 then 3 else if l ≤ 10 then 10 else if l ≤ 30 then 30 else 90

/-- Every input holds a value Go can hash, so the list is usable in a map key. -/
def keyable (inp : List Value) : Bool := inp.all (fun v => v.val.hashable)

deriving instance DecidableEq for Except

/-! ## Sample values -/

/-- A wrapped function that returns the number of its earlier invocations, so
that every invocation is observable in the output. -/
def countingFv : CanCall := fun log _ => [Value.mk (.int log.length) false]

/-- An interfaceable value holding a slice. -/
def sliceValue : Value := Value.mk (.slice 0 1) false

/-- A value reached through an unexported field: not interfaceable. -/
def hiddenValue : Value := Value.mk (.int 7) true

/-- An interfaceable integer. -/
def intValue (n : Int) : Value := Value.mk (.int n) false

/-- An interfaceable string. -/
def strValue (s : String) : Value := Value.mk (.str s) false

/-! ## Reference cache -/

/-- State of the reference cache: a single map keyed by the exact list of input values, and
the log of the invocations of the wrapped function. -/
structure RefState where
  cache : List (List Value × List Value)
  calls : List (List Value)
  deriving DecidableEq, Repr

/-- Reference cache, after the words of the spec: return the output stored for this exact
list of input values, or else invoke the wrapped function and store its output. -/
def refCall (fv : CanCall) (st : RefState) (inp : List Value) : Outcome × RefState :=
  match st.cache.find? (fun e => e.1 == inp) with
  | some e => (.ok e.2, st)
  | none =>
    (.ok (fv st.calls inp),
     { cache := st.cache ++ [(inp, fv st.calls inp)], calls := st.calls ++ [inp] })

/-- Runs a sequence of calls on the reference cache; for each call the outcome and the
invocation log after it. -/
def runRef (fv : CanCall) : RefState → List (List Value) → List (Outcome × List (List Value))
  | _, [] => []
  | st, inp :: rest =>
    let r := refCall fv st inp
    (r.1, r.2.calls) :: runRef fv r.2 rest

/-- The cacher state and the reference state agree on the log and on every lookup of an
input list of length `m` that is interfaceable and usable as a key. -/
def Agree (n m : Nat) (st : CacheState) (rst : RefState) : Prop :=
  st.calls = rst.calls ∧
  ∀ inp : List Value, inp.length = m → interfaceOkay inp = true → keyable inp = true →
    mapLookup st.cache (paddedKey n inp)
      = .ok ((rst.cache.find? (fun e => e.1 == inp)).map (fun e => e.2))

/-! ## api.go: provider annotations -/

/-- Modelled from the spec: the `provider` struct is not among the sources. It
carries the name given by `Provide` and the flag set of the spec's data model,
the fields the annotation functions of `api.go` assign. -/
structure provider where
  origin : String
  cacheable : Bool
  mustCache : Bool
  notCacheable : Bool
  memoize : Bool
  required : Bool
  desired : Bool
  mustConsume : Bool
  consumptionOptional : Bool
  loose : Bool
  callsInner : Bool
  deriving DecidableEq, Repr

/-- What the annotation functions accept as `fn interface{}`: a plain function
(known by its name) or a provider that is already annotated. -/
inductive Thing where
  | fn (name : String)
  | prov (p : provider)
  deriving DecidableEq, Repr

/-- Modelled from the spec: `newThing` is not among the sources. A plain
function becomes a provider with no annotation; a provider is taken as it is. -/
def newThing : Thing → provider
  | .fn _ =>
    { origin := "", cacheable := false, mustCache := false, notCacheable := false,
      memoize := false, required := false, desired := false, mustConsume := false,
      consumptionOptional := false, loose := false, callsInner := false }
  | .prov p => p

/-- Modelled from the spec: `modify` is not among the sources. Annotating never
mutates a provider: it applies the change to a copy and yields the copy. -/
def provider.modify (p : provider) (f : provider → provider) : provider := f p

/-- `Provide(name, fn)`. -/
def Provide (name : String) (fn : Thing) : provider :=
  (newThing fn).modify (fun fm => { fm with origin := name })

/-- `MustCache(fn)`. -/
def MustCache (fn : Thing) : provider :=
  (newThing fn).modify (fun fm => { fm with mustCache := true, cacheable := true })

/-- `Cacheable(fn)`. -/
def Cacheable (fn : Thing) : provider :=
  (newThing fn).modify (fun fm => { fm with cacheable := true })

/-- `NotCacheable(fn)`. -/
def NotCacheable (fn : Thing) : provider :=
  (newThing fn).modify (fun fm => { fm with notCacheable := true })

/-- `Memoize(fn)`. -/
def Memoize (fn : Thing) : provider :=
  (newThing fn).modify (fun fm => { fm with memoize := true, cacheable := true })

/-- `Required(fn)`. -/
def Required (fn : Thing) : provider :=
  (newThing fn).modify (fun fm => { fm with required := true })

/-- `Desired(fn)`. -/
def Desired (fn : Thing) : provider :=
  (newThing fn).modify (fun fm => { fm with desired := true })

/-- `MustConsume(fn)`. -/
def MustConsume (fn : Thing) : provider :=
  (newThing fn).modify (fun fm => { fm with mustConsume := true })

/-- `ConsumptionOptional(fn)`. -/
def ConsumptionOptional (fn : Thing) : provider :=
  (newThing fn).modify (fun fm => { fm with consumptionOptional := true })

/-- `callsInner(fn)`. -/
def callsInner (fn : Thing) : provider :=
  (newThing fn).modify (fun fm => { fm with callsInner := true })

/-- `Loose(fn)`. -/
def Loose (fn : Thing) : provider :=
  (newThing fn).modify (fun fm => { fm with loose := true })

/-- The annotation operations, as data. -/
inductive Annot where
  | provide (name : String)
  | mustCache
  | cacheable
  | notCacheable
  | memoize
  | required
  | desired
  | mustConsume
  | consumptionOptional
  | callsInner
  | loose
  deriving DecidableEq, Repr

/-- The annotation function an `Annot` stands for. -/
def Annot.apply : Annot → Thing → provider
  | .provide name => Provide name
  | .mustCache => MustCache
  | .cacheable => Cacheable
  | .notCacheable => NotCacheable
  | .memoize => Memoize
  | .required => Required
  | .desired => Desired
  | .mustConsume => MustConsume
  | .consumptionOptional => ConsumptionOptional
  | .callsInner => Nject.callsInner
  | .loose => Loose

/-- A finite composition of annotation operations, the first of the list
applied first (innermost): `annotate [a, b] f` is `b(a(f))`. -/
def annotate : List Annot → Thing → provider
  | [], t => newThing t
  | a :: rest, t => annotate rest (.prov (a.apply t))

/-- The flag invariant: `memoize` and `mustCache` each imply `cacheable`. -/
def FlagsOk (p : provider) : Prop :=
  (p.memoize = true → p.cacheable = true) ∧ (p.mustCache = true → p.cacheable = true)

/-! ## api.go: collections -/

/-- A `*provider`, by its address. -/
abbrev ProviderPtr := Nat

/-- A slice header `[]*provider`: the backing array, the length and the
capacity (the slices of this code start at the first cell of their array). -/
structure Slice where
  arr : Nat
  len : Nat
  cap : Nat
  deriving DecidableEq, Repr

/-- The heap of backing arrays, by array identity. -/
abbrev Heap := List (List ProviderPtr)

/-- The cells of a backing array. -/
def Heap.cells (h : Heap) (arr : Nat) : List ProviderPtr := h.getD arr []

/-- The elements of a slice. -/
def Heap.read (h : Heap) (s : Slice) : List ProviderPtr := (h.cells s.arr).take s.len

/-- Stores `xs` into the cells of an array from index `i` on. -/
def writeFrom : List ProviderPtr → Nat → List ProviderPtr → List ProviderPtr
  | cells, _, [] => cells
  | cells, i, x :: xs => writeFrom (cells.set i x) (i + 1) xs

/-- Go's built-in `append(s, xs...)`: when the capacity suffices the elements
are stored into the backing array of `s`, which the result shares; otherwise a
new array is allocated. `grow oldCap needed` is the run-time's choice of the new
capacity, used when it is at least what is needed. -/
def goAppend (grow : Nat → Nat → Nat) (h : Heap) (s : Slice) (xs : List ProviderPtr) :
    Heap × Slice :=
  if s.len + xs.length ≤ s.cap then
    (h.set s.arr (writeFrom (h.cells s.arr) s.len xs), { s with len := s.len + xs.length })
  else
    let needed := s.len + xs.length
    let newCap := max (grow s.cap needed) needed
    (h ++ [h.read s ++ xs ++ List.replicate (newCap - needed) 0],
     { arr := h.length, len := needed, cap := newCap })

/-- The run-time's growth for small slices: double the capacity when that is
enough. -/
def growDouble (oldCap needed : Nat) : Nat := if 2 * oldCap < needed then needed else 2 * oldCap

/-- `Collection`: a name and the slice of its providers. -/
structure Collection where
  name : String
  contents : Slice
  deriving DecidableEq, Repr

/-- Modelled from the spec: `newCollection` is not among the sources. It makes
a collection of the given name whose contents are the given providers, in
order, in an array of its own. -/
def newCollection (h : Heap) (name : String) (funcs : List ProviderPtr) : Heap × Collection :=
  (h ++ [funcs],
   { name := name,
     contents := { arr := h.length, len := funcs.length, cap := funcs.length } })

/-- `c.Append(name, funcs...)`. -/
def Collection.Append (grow : Nat → Nat → Nat) (h : Heap) (c : Collection) (name : String)
    (funcs : List ProviderPtr) : Heap × Collection :=
  let r := newCollection h name funcs
  let a := goAppend grow r.1 c.contents (r.1.read r.2.contents)
  (a.1, { r.2 with contents := a.2 })

/-! ## api.go: Bind and SetCallback -/

/-- `reflect.Kind`, the kinds this code can meet. -/
inductive Kind where
  | Bool
  | Int
  | String
  | Ptr
  | Slice
  | Map
  | Struct
  | Interface
  | Func
  deriving DecidableEq, Repr

/-- Type of an input of the setter, `setterType.In(i)`: its name and its kind. -/
structure ParamType where
  name : String
  kind : Kind
  deriving DecidableEq, Repr

/-- The `reflect.Type` of a value, as far as `SetCallback` inspects it: its kind
and, for a function type, its inputs and the number of its outputs. -/
structure RType where
  kind : Kind
  ins : List ParamType
  numOut : Nat
  deriving DecidableEq, Repr

/-- A non-nil `interface{}` argument: its dynamic type, and whether it is the
nil value of a function type. -/
structure GoValue where
  typ : RType
  isNil : Bool
  deriving DecidableEq, Repr

/-- Panics of the reflection calls in `SetCallback`. -/
inductive ReflectPanic where
  | typeOfZeroValue
  | indexOutOfRange
  | callOfNilFunction
  deriving DecidableEq, Repr

/-- The errors `SetCallback` returns: one made by `fmt.Errorf`, or the
`njectError` of `Bind` with the binding error and the debugging details. -/
inductive GoError where
  | errorf (msg : String)
  | njectError (err : String) (details : String)
  deriving DecidableEq, Repr

/-- A generated function, by its identity. -/
abbrev Callable := Nat

/-- A function variable that `Bind` receives a pointer to (`reflect.New(t)`):
its type and the function it holds, `none` while it is nil. -/
structure FuncVar where
  typ : ParamType
  fn : Option Callable
  deriving DecidableEq, Repr

/-- `reflect.New(t)`: a pointer to a new nil function variable of type `t`. -/
def reflectNew (t : ParamType) : FuncVar := { typ := t, fn := none }

/-- Modelled from the spec: `doBind` and `captureDoBindDebugging` are not among
the sources. Binding is all-or-nothing: `doBind` either fails with an error and
hands nothing back, or yields the generated invoke and init functions. -/
structure Binder where
  doBind : Collection → ParamType → Option ParamType → Except String (Callable × Callable)
  captureDoBindDebugging : Collection → ParamType → Option ParamType → String

/-- `c.bindFast(invokeFunc, initFunc)`: the error and the function variables after
the call. -/
def Collection.bindFast (b : Binder) (c : Collection) (invokeFunc : FuncVar)
    (initFunc : Option FuncVar) : Option String × FuncVar × Option FuncVar :=
  match b.doBind c invokeFunc.typ (initFunc.map (fun v => v.typ)) with
  | .error err => (some err, invokeFunc, initFunc)
  | .ok (inv, ini) =>
    (none, { invokeFunc with fn := some inv },
     initFunc.map (fun v => { v with fn := some ini }))

/-- `c.Bind(invokeFunc, initFunc)`. -/
def Collection.Bind (b : Binder) (c : Collection) (invokeFunc : FuncVar)
    (initFunc : Option FuncVar) : Option GoError × FuncVar × Option FuncVar :=
  match c.bindFast b invokeFunc initFunc with
  | (some err, inv, ini) =>
    (some (.njectError err
      (b.captureDoBindDebugging c invokeFunc.typ (initFunc.map (fun v => v.typ)))), inv, ini)
  | (none, inv, ini) => (none, inv, ini)

/-- What a call of `SetCallback` did: what it returned (or the panic), the
calls of `Bind` it made (with the types of the function variables) and the
calls of the setter it made (with their arguments). -/
structure CallbackRun where
  ret : Except ReflectPanic (Option GoError)
  binds : List (ParamType × Option ParamType)
  setterCalls : List (List (Option Callable))
  deriving DecidableEq, Repr

/-- The loop over the inputs of the setter: the error for the first input, from
index `i` on, whose kind is not `Func`. -/
def checkInputs : List ParamType → Nat → Option GoError
  | [], _ => none
  | t :: rest, i =>
    if t.kind ≠ Kind.Func then
      some (.errorf ("SetCallback function argument #" ++ toString (i + 1)
        ++ " must be a function"))
    else checkInputs rest (i + 1)

/-- `setter.Call(args)`: panics on a nil function, otherwise the setter runs
with the arguments. -/
def setterCall (setter : GoValue) (args : List (Option Callable)) (err : Option GoError)
    (binds : List (ParamType × Option ParamType)) : CallbackRun :=
  if setter.isNil then { ret := .error .callOfNilFunction, binds := binds, setterCalls := [] }
  else { ret := .ok err, binds := binds, setterCalls := [args] }

/-- `c.SetCallback(setCallbackFunc)`. -/
def Collection.SetCallback (b : Binder) (c : Collection) (setCallbackFunc : Option GoValue) :
    CallbackRun :=
  match setCallbackFunc with
  | none =>
    -- reflect.ValueOf(nil) is the zero Value, and Type panics on it
    { ret := .error .typeOfZeroValue, binds := [], setterCalls := [] }
  | some setter =>
    let setterType := setter.typ
    if setterType.kind ≠ Kind.Func then
      { ret := .ok (some (.errorf "SetCallback must be passed a function")),
        binds := [], setterCalls := [] }
    else if setterType.ins.length < 1 ∨ setterType.ins.length > 2 then
      { ret := .ok (some (.errorf "SetCallback function argument must take one or two inputs")),
        binds := [], setterCalls := [] }
    else if setterType.numOut > 0 then
      { ret := .ok (some (.errorf "SetCallback function argument must return nothing")),
        binds := [], setterCalls := [] }
    else
      match checkInputs setterType.ins 0 with
      | some e => { ret := .ok (some e), binds := [], setterCalls := [] }
      | none =>
        match setterType.ins with
        | [] => { ret := .error .indexOutOfRange, binds := [], setterCalls := [] }
        | in0 :: more =>
          let invokePtr := reflectNew in0
          if setterType.ins.length = 2 then
            match more with
            | [] => { ret := .error .indexOutOfRange, binds := [], setterCalls := [] }
            | in1 :: _ =>
              let initPtr := reflectNew in1
              let r := c.Bind b invokePtr (some initPtr)
              if r.1 = none then
                setterCall setter [r.2.1.fn, (r.2.2.map (fun v => v.fn)).getD none] r.1
                  [(in0, some in1)]
              else { ret := .ok r.1, binds := [(in0, some in1)], setterCalls := [] }
          else
            let r := c.Bind b invokePtr none
            if r.1 = none then setterCall setter [r.2.1.fn] r.1 [(in0, none)]
            else { ret := .ok r.1, binds := [(in0, none)], setterCalls := [] }

/-- A setter that passes the checks of `SetCallback` and can be called: a
non-nil function of one or two inputs, all of function type, and no output. -/
def wellFormedSetter (s : GoValue) : Bool :=
  decide (s.typ.kind = Kind.Func) && decide (1 ≤ s.typ.ins.length) &&
    decide (s.typ.ins.length ≤ 2) && decide (s.typ.numOut = 0) &&
    s.typ.ins.all (fun t => decide (t.kind = Kind.Func)) && !s.isNil

/-- The setter fails one of the checks of `SetCallback`: it is not a function, or takes
fewer than one or more than two inputs, or returns a value, or has an input that is not of
function type. -/
def malformedSetter (s : GoValue) : Bool :=
  decide (s.typ.kind ≠ Kind.Func) || decide (s.typ.ins.length < 1) ||
    decide (2 < s.typ.ins.length) || decide (0 < s.typ.numOut) ||
    s.typ.ins.any (fun t => decide (t.kind ≠ Kind.Func))

/-- A binder that succeeds with the generated functions 11 and 12. -/
def okBinder : Binder :=
  { doBind := fun _ _ _ => .ok (11, 12), captureDoBindDebugging := fun _ _ _ => "details" }

/-- A binder that fails. -/
def failingBinder : Binder :=
  { doBind := fun _ _ _ => .error "no provider for type",
    captureDoBindDebugging := fun _ _ _ => "details" }

/-- The type `func()`, as an input of a setter. -/
def funcParam : ParamType := { name := "func()", kind := Kind.Func }

/-- A setter `func(invoke func(), init func())`. -/
def twoFuncSetter : GoValue :=
  { typ := { kind := Kind.Func, ins := [funcParam, funcParam], numOut := 0 }, isNil := false }

/-- A collection to bind. -/
def sampleCollection : Collection :=
  { name := "c", contents := { arr := 0, len := 0, cap := 0 } }

/-- The slice lies within the heap: its array exists and has as many cells as
the capacity says, and the length is within the capacity. -/
def Heap.holds (h : Heap) (s : Slice) : Prop :=
  s.arr < h.length ∧ (h.cells s.arr).length = s.cap ∧ s.len ≤ s.cap

/-! ## nvelope/middleware.go -/

/-- The loop of `combineMiddleware`: `for i := len(m) - 2; i >= 0; i--` with the body
`f := m[i]; c := combined; combined = func(h) { return f(c(h)) }`. The first argument is
`i + 1`, the number of iterations left; `none` stands for an index out of range. -/
def combineLoop {H : Type} (m : List (H → H)) : Nat → (H → H) → Option (H → H)
  | 0, combined => some combined
  | i + 1, combined =>
    match m[i]? with
    | none => none
    | some f => combineLoop m i (fun h => f (combined h))

/-- The `default` branch of `combineMiddleware`: `combined := m[len(m)-1]`, then the loop.
On the empty list the index `len(m)-1` is out of range. -/
def combineGeneral {H : Type} (m : List (H → H)) : Option (H → H) :=
  if m.length = 0 then none
  else
    match m[m.length - 1]? with
    | none => none
    | some last => combineLoop m (m.length - 1) last

/-- `combineMiddleware(m)`, for handlers of type `H`; `none` stands for a panic. -/
def combineMiddleware {H : Type} (m : List (H → H)) : Option (H → H) :=
  match m.length with
  | 0 => some (fun h => h)
  | 1 => m[0]?
  | _ => combineGeneral m

/-- Three sample middleware on handlers that are lists of numbers: each puts its own number
in front. -/
def sampleMiddleware : List (List Nat → List Nat) :=
  [fun h => 1 :: h, fun h => 2 :: h, fun h => 3 :: h]

/-! ## nvelope/panic.go -/

/-- The struct `panicError`: the printed panic value, the value `recover()` gave, and the
stack. -/
structure panicError where
  msg : String
  r : Iface
  stack : String
  deriving DecidableEq, Repr

/-- An `error` value, by what the type assertions of `isPanicError` can tell: nil, a
`panicError`, an error with neither `Cause` nor `Unwrap`, with `Cause` only, with `Unwrap`
only, or with both. Chains of causes are finite. -/
inductive ErrorValue where
  | nil
  | panic (pe : panicError)
  | plain (text : String)
  | causer (cause : ErrorValue)
  | unwraper (inner : ErrorValue)
  | both (cause : ErrorValue) (inner : ErrorValue)
  deriving DecidableEq, Repr

/-- The zero value `panicError{}`. -/
def panicError.zero : panicError := { msg := "", r := Iface.nil, stack := "" }

/-- `isPanicError(err)`: the loop over the chain of causes, `Cause` before `Unwrap`. -/
def isPanicError : ErrorValue → panicError × Bool
  | .panic pe => (pe, true)
  | .causer c => isPanicError c
  | .both c _ => isPanicError c
  | .unwraper u => isPanicError u
  | .nil => (panicError.zero, false)
  | .plain _ => (panicError.zero, false)

/-- `RecoverInterface(err)`. -/
def RecoverInterface (err : ErrorValue) : Iface :=
  if (isPanicError err).2 then (isPanicError err).1.r else Iface.nil

/-- `RecoverStack(err)`. -/
def RecoverStack (err : ErrorValue) : String :=
  if (isPanicError err).2 then (isPanicError err).1.stack else ""

/-- `errors.WithStack(err)` of github.com/pkg/errors: nil for nil, otherwise a wrapper whose
`Cause` and `Unwrap` both return `err`. -/
def errorsWithStack : ErrorValue → ErrorValue
  | .nil => .nil
  | e => .both e e

/-- Modelled from the spec: the interface `BasicLogger` is not among the sources. A logger
records the calls of `Error` (message, `msg` field, `stack` field) and, when it is a
`LogFlusher` too, the calls of `Flush`. -/
structure BasicLogger where
  isFlusher : Bool
  errors : List (String × String × String)
  flushes : Nat
  deriving DecidableEq, Repr

/-- `SetErrorOnPanic(ep, log)`, run as a deferred call: `recovered` is what `recover()`
returns (nil when there is no panic), `sprint` is `fmt.Sprint` and `stack` what
`debug.Stack()` returns. The result is the error variable `*ep` and the logger after the
call. -/
def SetErrorOnPanic (sprint : Iface → String) (stack : String) (recovered : Iface)
    (ep : ErrorValue) (log : BasicLogger) : ErrorValue × BasicLogger :=
  if recovered = Iface.nil then (ep, log)
  else
    let pe : panicError := { msg := sprint recovered, r := recovered, stack := stack }
    let log1 := { log with errors := log.errors ++ [("panic!", pe.msg, pe.stack)] }
    (errorsWithStack (.panic pe),
     if log1.isFlusher then { log1 with flushes := log1.flushes + 1 } else log1)

/-- A layer that wraps an error: its `Cause`, its `Unwrap`, or both (`errors.WithStack`)
return the wrapped error. -/
inductive Layer where
  | causer
  | unwraper
  | withStack
  deriving DecidableEq, Repr

/-- Wraps an error in one layer. -/
def Layer.wrap : Layer → ErrorValue → ErrorValue
  | .causer, e => .causer e
  | .unwraper, e => .unwraper e
  | .withStack, e => errorsWithStack e

/-- Wraps an error in the layers of the list, the first of the list outermost. -/
def wrapAll : List Layer → ErrorValue → ErrorValue
  | [], e => e
  | l :: rest, e => l.wrap (wrapAll rest e)

/-- Whether a `panicError` can be reached from the error through `Cause` and `Unwrap`. -/
def ErrorValue.hasPanic : ErrorValue → Bool
  | .panic _ => true
  | .causer c => c.hasPanic
  | .unwraper u => u.hasPanic
  | .both c u => c.hasPanic || u.hasPanic
  | .nil => false
  | .plain _ => false

/-- A logger that is no flusher and has logged nothing. -/
def quietLogger : BasicLogger := { isFlusher := false, errors := [], flushes := 0 }

/-! ## Bound chains: the initializer and the invoker -/

/-- Modelled from the spec: the initializer and the invoker that `Bind` generates are made by
`doBind`, which is not among the sources. A bound chain has a static segment, run by the
initializer, and a run segment, run by the invoker on the outputs of the static segment and
its own arguments. The providers of the static segment may be stateful (one may count its
own invocations): their outputs may depend on the log of the earlier executions. -/
structure BoundChain where
  staticSegment : CanCall
  runSegment : List Value → List Value → List Value

/-- Modelled from the spec: state of a bound chain (part of what `doBind` generates, not
among the sources): the log of the executions of the static segment, with the arguments of
each, and the values the first call of the initializer computed. -/
structure ChainState where
  staticRuns : List (List Value)
  cached : Option (List Value)
  deriving DecidableEq, Repr

/-- Modelled from the spec: the generated initializer (not among the sources). It executes
the static segment once and caches the values; subsequent calls are no-ops that return the
previously computed results. -/
def BoundChain.initFunc (c : BoundChain) (st : ChainState) (args : List Value) :
    List Value × ChainState :=
  match st.cached with
  | some vals => (vals, st)
  | none =>
    (c.staticSegment st.staticRuns args,
     { staticRuns := st.staticRuns ++ [args],
       cached := some (c.staticSegment st.staticRuns args) })

/-- Modelled from the spec: the generated invoker (not among the sources). It executes the
run segment per call, reusing the outputs of the static segment. The spec does not say what
a call before the first call of the initializer does: the model gives no result for it. -/
def BoundChain.invokeFunc (c : BoundChain) (st : ChainState) (args : List Value) :
    Option (List Value) × ChainState :=
  match st.cached with
  | some vals => (some (c.runSegment vals args), st)
  | none => (none, st)

/-- A call on a bound chain: of the initializer or of the invoker, with its arguments. -/
inductive ChainCall where
  | init (args : List Value)
  | invoke (args : List Value)
  deriving DecidableEq, Repr

/-- Runs a sequence of calls on a bound chain: the result of each call and the final state. -/
def runChain (c : BoundChain) : ChainState → List ChainCall →
    List (Option (List Value)) × ChainState
  | st, [] => ([], st)
  | st, .init args :: rest =>
    let r := c.initFunc st args
    let t := runChain c r.2 rest
    (some r.1 :: t.1, t.2)
  | st, .invoke args :: rest =>
    let r := c.invokeFunc st args
    let t := runChain c r.2 rest
    (r.1 :: t.1, t.2)

/-- What the calls return once the static values are `vals`: the initializer returns them
whatever its arguments, the invoker runs the run segment on them. -/
def afterInit (c : BoundChain) (vals : List Value) : ChainCall → Option (List Value)
  | .init _ => some vals
  | .invoke args => some (c.runSegment vals args)

/-- The chain of `ExampleCollection_Bind`: the static segment takes the string of the
initializer and yields its length and the string, after the number of its own earlier
executions; the run segment hands these to the final function. -/
def exampleChain : BoundChain :=
  { staticSegment := fun log args =>
      match args with
      | [v] =>
        match v.val with
        | .str s => [intValue log.length, intValue s.length, strValue s]
        | _ => []
      | _ => [],
    runSegment := fun vals _ => vals }

/-! # Lemmas -/

/-! ## Lemmas on the cache code -/

theorem interfaceOkay_cons (v : Value) (rest : List Value) :
    interfaceOkay (v :: rest) = (!v.ro && interfaceOkay rest) := by
  cases h : v.ro <;> simp [interfaceOkay, Value.CanInterface, h]

theorem interfaceOkay_iff (inp : List Value) :
    interfaceOkay inp = true ↔ ∀ v ∈ inp, v.ro = false := by
  induction inp with
  | nil => simp [interfaceOkay]
  | cons v rest ih => simp [interfaceOkay_cons, ih]

theorem set_at_length (done : List Iface) (t x : Iface) (todo : List Iface) :
    (done ++ t :: todo).set done.length x = done ++ x :: todo := by
  induction done with
  | nil => rfl
  | cons d ds ih => simp [ih]

theorem fillInputs_closed (inp : List Value) :
    ∀ (done todo : List Iface), interfaceOkay inp = true → inp.length ≤ todo.length →
      fillInputs (done ++ todo) done.length inp
        = .ok (done ++ inp.map Value.val ++ todo.drop inp.length) := by
  induction inp with
  | nil => intro done todo _ _; simp [fillInputs]
  | cons v rest ih =>
    intro done todo hok hlen
    rw [interfaceOkay_cons] at hok
    simp only [Bool.and_eq_true, Bool.not_eq_true'] at hok
    cases todo with
    | nil => simp at hlen
    | cons t todo =>
      have hlen2 : rest.length ≤ todo.length := by simpa using hlen
      have hstep := ih (done ++ [v.val]) todo hok.2 hlen2
      simp only [fillInputs, Value.Interface, hok.1]
      have hlt : done.length < (done ++ t :: todo).length := by simp
      simp only [Bool.false_eq_true, if_false, hlt, if_true, set_at_length]
      have e1 : done ++ v.val :: todo = (done ++ [v.val]) ++ todo := by simp
      have e2 : done.length + 1 = (done ++ [v.val]).length := by simp
      rw [e1, e2, hstep]
      simp

theorem fillInputs_overflow (inp : List Value) :
    ∀ (key : List Iface) (i : Nat), interfaceOkay inp = true → key.length < i + inp.length →
      i ≤ key.length → fillInputs key i inp = .error .indexOutOfRange := by
  induction inp with
  | nil => intro key i _ h1 h2; simp at h1; omega
  | cons v rest ih =>
    intro key i hok h1 h2
    rw [interfaceOkay_cons] at hok
    simp only [Bool.and_eq_true, Bool.not_eq_true'] at hok
    simp only [fillInputs, Value.Interface, hok.1, Bool.false_eq_true, if_false]
    by_cases hi : i < key.length
    · simp only [hi, if_true]
      apply ih _ _ hok.2
      · simp only [List.length_set]; simp at h1; omega
      · simp only [List.length_set]; omega
    · simp [hi]

theorem fillRest_closed (todo : List Iface) :
    ∀ (done : List Iface) (fuel : Nat), todo.length ≤ fuel →
      fillRest fuel (done ++ todo) done.length
        = done ++ List.replicate todo.length (Iface.str "") := by
  induction todo with
  | nil =>
    intro done fuel _
    cases fuel <;> simp [fillRest]
  | cons t todo ih =>
    intro done fuel hf
    cases fuel with
    | zero => simp at hf
    | succ fuel =>
      have hf2 : todo.length ≤ fuel := by simpa using hf
      have hlt : done.length < (done ++ t :: todo).length := by simp
      simp only [fillRest, hlt, if_true, set_at_length]
      have e1 : done ++ Iface.str "" :: todo = (done ++ [Iface.str ""]) ++ todo := by simp
      have e2 : done.length + 1 = (done ++ [Iface.str ""]).length := by simp
      rw [e1, e2, ih _ _ hf2]
      simp [List.replicate_succ]

theorem fillKey_closed (n : Nat) (inp : List Value) (hok : interfaceOkay inp = true)
    (hlen : inp.length ≤ n) :
    fillKeyFromInputs (zeroKey n) inp = .ok (paddedKey n inp) := by
  have h1 := fillInputs_closed inp [] (zeroKey n) hok (by simpa [zeroKey] using hlen)
  simp only [List.nil_append, List.length_nil] at h1
  simp only [fillKeyFromInputs, h1]
  have h2 := fillRest_closed ((zeroKey n).drop inp.length) (inp.map Value.val)
    ((inp.map Value.val) ++ (zeroKey n).drop inp.length).length (by simp)
  simp only [List.length_map] at h2
  rw [h2]
  simp [paddedKey, zeroKey]

theorem hashable_empty_str : Iface.hashable (Iface.str "") = true := rfl

theorem keyHashable_padded (n : Nat) (inp : List Value) :
    keyHashable (paddedKey n inp) = keyable inp := by
  induction inp with
  | nil => simp [keyHashable, paddedKey, keyable, hashable_empty_str]
  | cons v rest ih =>
    simp only [keyHashable, paddedKey, keyable, List.all_append, List.all_map,
      List.all_cons, List.map_cons, List.cons_append, List.length_cons] at ih ⊢
    have hrep : ∀ m : Nat, (List.replicate m (Iface.str "")).all Iface.hashable = true := by
      intro m; simp [hashable_empty_str]
    simp [hrep] at ih ⊢
    rw [ih]

theorem map_val_injective (a : List Value) :
    ∀ b : List Value, interfaceOkay a = true → interfaceOkay b = true →
      a.map Value.val = b.map Value.val → a = b := by
  induction a with
  | nil => intro b _ _ h; cases b <;> simp_all
  | cons v rest ih =>
    intro b ha hb h
    cases b with
    | nil => simp at h
    | cons w rest2 =>
      rw [interfaceOkay_cons] at ha hb
      simp only [Bool.and_eq_true, Bool.not_eq_true'] at ha hb
      simp only [List.map_cons, List.cons.injEq] at h
      have hvw : v = w := by
        cases v; cases w; simp_all
      rw [hvw, ih rest2 ha.2 hb.2 h.2]

theorem paddedKey_injective (n : Nat) (a b : List Value) (ha : interfaceOkay a = true)
    (hb : interfaceOkay b = true) (hlen : a.length = b.length)
    (h : paddedKey n a = paddedKey n b) : a = b := by
  unfold paddedKey at h
  have h2 := List.append_inj_left h (by simp [hlen])
  exact map_val_injective a b ha hb h2

theorem tierSize_ge (l : Int) (m : Nat) (hl : l ≤ 90) (hm : (m : Int) ≤ l) : m ≤ tierSize l := by
  unfold tierSize
  split_ifs <;> omega

theorem defineCacher_call (id : Int) (fv : CanCall) (l : Int) (hl : l ≤ 90) :
    (defineCacher id fv l).call = cachedCall (tierSize l) fv := by
  unfold defineCacher tierSize
  split_ifs <;> rfl

theorem defineCacher_direct (id : Int) (fv : CanCall) (l : Int) (hl : 90 < l) :
    (defineCacher id fv l).call = directCall fv := by
  unfold defineCacher
  split_ifs <;> first | rfl | omega

theorem mapStore_of_miss (m : GoMap) (k : Key) (out : List Value)
    (h : mapLookup m k = .ok none) : mapStore m k out = .ok (m ++ [(k, out)]) := by
  unfold mapLookup at h
  unfold mapStore
  by_cases hk : keyHashable k = true
  · simp only [hk, if_true] at h ⊢
    have hnone : m.find? (fun e => e.1 == k) = none := by
      cases hf : m.find? (fun e => e.1 == k) with
      | none => rfl
      | some e => rw [hf] at h; simp at h
    have hany : m.any (fun e => e.1 == k) = false := by
      rw [List.find?_eq_none] at hnone
      simp only [List.any_eq_false]
      exact hnone
    simp [hany]
  · simp [hk] at h

theorem mapLookup_append (m : GoMap) (k : Key) (out : List Value) (e : Key × List Value)
    (h : mapLookup m k = .ok (some out)) : mapLookup (m ++ [e]) k = .ok (some out) := by
  unfold mapLookup at h ⊢
  by_cases hk : keyHashable k = true
  · simp only [hk, if_true] at h ⊢
    cases hf : m.find? (fun e => e.1 == k) with
    | none => rw [hf] at h; simp at h
    | some e2 =>
      rw [hf] at h
      simp [List.find?_append, hf] at h ⊢
      exact h
  · simp [hk] at h

theorem cachedCall_bypass (n : Nat) (fv : CanCall) (st : CacheState) (inp : List Value)
    (h : interfaceOkay inp = false) :
    cachedCall n fv st inp
      = (.ok (fv st.calls inp), { cache := st.cache, calls := st.calls ++ [inp] }) := by
  simp [cachedCall, h]

theorem cachedCall_hit (n : Nat) (fv : CanCall) (st : CacheState) (inp : List Value)
    (key : Key) (out : List Value) (hok : interfaceOkay inp = true)
    (hkey : fillKeyFromInputs (zeroKey n) inp = .ok key)
    (hfound : mapLookup st.cache key = .ok (some out)) :
    cachedCall n fv st inp = (.ok out, st) := by
  simp [cachedCall, hok, hkey, hfound]

theorem cachedCall_miss (n : Nat) (fv : CanCall) (st : CacheState) (inp : List Value)
    (key : Key) (hok : interfaceOkay inp = true)
    (hkey : fillKeyFromInputs (zeroKey n) inp = .ok key)
    (hmiss : mapLookup st.cache key = .ok none) :
    cachedCall n fv st inp
      = (.ok (fv st.calls inp),
         { cache := st.cache ++ [(key, fv st.calls inp)], calls := st.calls ++ [inp] }) := by
  simp [cachedCall, hok, hkey, hmiss, mapStore_of_miss _ _ _ hmiss]

theorem cachedCall_unhashable (n : Nat) (fv : CanCall) (st : CacheState) (inp : List Value)
    (key : Key) (hok : interfaceOkay inp = true)
    (hkey : fillKeyFromInputs (zeroKey n) inp = .ok key)
    (hbad : keyHashable key = false) :
    cachedCall n fv st inp = (.error .unhashable, st) := by
  simp [cachedCall, hok, hkey, mapLookup, hbad]

theorem fillInputs_ok_interfaceOkay (inp : List Value) :
    ∀ (key : List Iface) (i : Nat) (k : List Iface),
      fillInputs key i inp = .ok k → interfaceOkay inp = true := by
  induction inp with
  | nil => intro _ _ _ _; rfl
  | cons v rest ih =>
    intro key i k h
    rw [interfaceOkay_cons]
    cases hro : v.ro with
    | true => simp [fillInputs, Value.Interface, hro] at h
    | false =>
      simp only [fillInputs, Value.Interface, hro, Bool.false_eq_true, if_false] at h
      by_cases hi : i < key.length
      · simp only [hi, if_true] at h
        simp [ih _ _ _ h]
      · simp [hi] at h

theorem fillKey_ok_interfaceOkay (key : List Iface) (inp : List Value) (k : List Iface)
    (h : fillKeyFromInputs key inp = .ok k) : interfaceOkay inp = true := by
  unfold fillKeyFromInputs at h
  cases hf : fillInputs key 0 inp with
  | error p => rw [hf] at h; simp at h
  | ok k1 => exact fillInputs_ok_interfaceOkay inp key 0 k1 hf

theorem cachedCall_keeps (n : Nat) (fv : CanCall) (st : CacheState) (inp : List Value)
    (k : Key) (out : List Value) (h : mapLookup st.cache k = .ok (some out)) :
    mapLookup (cachedCall n fv st inp).2.cache k = .ok (some out) := by
  cases hok : interfaceOkay inp with
  | false => rw [cachedCall_bypass n fv st inp hok]; exact h
  | true =>
    cases hf : fillKeyFromInputs (zeroKey n) inp with
    | error p => simp [cachedCall, hok, hf, h]
    | ok key =>
      cases hl : mapLookup st.cache key with
      | error p => simp [cachedCall, hok, hf, hl, h]
      | ok found =>
        cases found with
        | some o => rw [cachedCall_hit n fv st inp key o hok hf hl]; exact h
        | none =>
          rw [cachedCall_miss n fv st inp key hok hf hl]
          exact mapLookup_append _ _ _ _ h

theorem runCalls_keeps (n : Nat) (fv : CanCall) (k : Key) (out : List Value)
    (inps : List (List Value)) :
    ∀ st : CacheState, mapLookup st.cache k = .ok (some out) →
      mapLookup (runCalls (cachedCall n fv) st inps).2.cache k = .ok (some out) := by
  induction inps with
  | nil => intro st h; exact h
  | cons inp rest ih =>
    intro st h
    simp only [runCalls]
    exact ih _ (cachedCall_keeps n fv st inp k out h)

theorem find_append_single {κ β : Type} [BEq κ] [LawfulBEq κ] (cache : List (κ × β))
    (k k2 : κ) (o : β) :
    ((cache ++ [(k, o)]).find? (fun e => e.1 == k2)).map (fun e => e.2)
      = ((cache.find? (fun e => e.1 == k2)).map (fun e => e.2)).or
          (if k == k2 then some o else none) := by
  rw [List.find?_append]
  cases hf : cache.find? (fun e => e.1 == k2) with
  | some e => simp
  | none =>
    by_cases hk : (k == k2) = true
    · simp [List.find?, hk]
    · simp [List.find?, hk]

theorem refCall_hit (fv : CanCall) (rst : RefState) (inp : List Value)
    (e : List Value × List Value) (h : rst.cache.find? (fun e => e.1 == inp) = some e) :
    refCall fv rst inp = (.ok e.2, rst) := by
  simp [refCall, h]

theorem refCall_miss (fv : CanCall) (rst : RefState) (inp : List Value)
    (h : rst.cache.find? (fun e => e.1 == inp) = none) :
    refCall fv rst inp
      = (.ok (fv rst.calls inp),
         { cache := rst.cache ++ [(inp, fv rst.calls inp)], calls := rst.calls ++ [inp] }) := by
  simp [refCall, h]

theorem agree_step (n m : Nat) (hmn : m ≤ n) (fv : CanCall) (st : CacheState) (rst : RefState)
    (inp : List Value) (hag : Agree n m st rst) (hlen : inp.length = m)
    (hok : interfaceOkay inp = true) (hkey : keyable inp = true) :
    (cachedCall n fv st inp).1 = (refCall fv rst inp).1 ∧
    (cachedCall n fv st inp).2.calls = (refCall fv rst inp).2.calls ∧
    Agree n m (cachedCall n fv st inp).2 (refCall fv rst inp).2 := by
  obtain ⟨hcalls, hlook⟩ := hag
  have hfill := fillKey_closed n inp hok (by omega)
  have hl := hlook inp hlen hok hkey
  cases hr : rst.cache.find? (fun e => e.1 == inp) with
  | some e =>
    rw [hr] at hl
    rw [cachedCall_hit n fv st inp _ e.2 hok hfill hl, refCall_hit fv rst inp e hr]
    exact ⟨rfl, hcalls, hcalls, hlook⟩
  | none =>
    rw [hr] at hl
    rw [cachedCall_miss n fv st inp _ hok hfill hl, refCall_miss fv rst inp hr, hcalls]
    refine ⟨rfl, rfl, rfl, ?_⟩
    intro inp2 hlen2 hok2 hkey2
    have hl2 := hlook inp2 hlen2 hok2 hkey2
    have hh : keyHashable (paddedKey n inp2) = true := by rw [keyHashable_padded]; exact hkey2
    simp only [mapLookup, hh, if_true, Except.ok.injEq] at hl2 ⊢
    rw [find_append_single, find_append_single, hl2]
    by_cases heq : inp = inp2
    · subst heq
      simp
    · have hkne : paddedKey n inp ≠ paddedKey n inp2 :=
        fun h => heq (paddedKey_injective n inp inp2 hok hok2 (by omega) h)
      simp [heq, hkne]

theorem agree_run (n m : Nat) (hmn : m ≤ n) (fv : CanCall) (inps : List (List Value)) :
    ∀ (st : CacheState) (rst : RefState), Agree n m st rst →
      (∀ inp ∈ inps, inp.length = m ∧ interfaceOkay inp = true ∧ keyable inp = true) →
      (runCalls (cachedCall n fv) st inps).1 = runRef fv rst inps := by
  induction inps with
  | nil => intro _ _ _ _; rfl
  | cons inp rest ih =>
    intro st rst hag hgood
    have hg := hgood inp (by simp)
    obtain ⟨h1, h2, h3⟩ := agree_step n m hmn fv st rst inp hag hg.1 hg.2.1 hg.2.2
    simp only [runCalls, runRef]
    rw [h1, h2, ih _ _ h3 (fun x hx => hgood x (by simp [hx]))]

/-! ## Lemmas on the annotations -/

theorem apply_flagsOk (a : Annot) (t : Thing) (h : FlagsOk (newThing t)) :
    FlagsOk (a.apply t) := by
  obtain ⟨h1, h2⟩ := h
  unfold FlagsOk
  cases a <;>
    simp [Annot.apply, Provide, MustCache, Cacheable, NotCacheable, Memoize, Required,
      Desired, MustConsume, ConsumptionOptional, Nject.callsInner, Loose, provider.modify] <;>
    exact ⟨h1, h2⟩

theorem annotate_flagsOk (anns : List Annot) :
    ∀ t : Thing, FlagsOk (newThing t) → FlagsOk (annotate anns t) := by
  induction anns with
  | nil => intro t h; exact h
  | cons a rest ih =>
    intro t h
    exact ih (.prov (a.apply t)) (apply_flagsOk a t h)

/-! ## Lemmas on SetCallback -/

theorem checkInputs_none (ins : List ParamType) :
    ∀ i : Nat, ins.all (fun t => decide (t.kind = Kind.Func)) = true → checkInputs ins i = none := by
  induction ins with
  | nil => intro _ _; rfl
  | cons t rest ih =>
    intro i h
    simp only [List.all_cons, Bool.and_eq_true, decide_eq_true_eq] at h
    simp [checkInputs, h.1, ih (i + 1) h.2]

theorem checkInputs_some (ins : List ParamType) :
    ∀ i : Nat, ins.any (fun t => decide (t.kind ≠ Kind.Func)) = true →
      ∃ msg, checkInputs ins i = some (.errorf msg) := by
  induction ins with
  | nil => intro _ h; simp at h
  | cons t rest ih =>
    intro i h
    by_cases hk : t.kind = Kind.Func
    · simp only [List.any_cons, hk, ne_eq, not_true_eq_false, decide_False, Bool.false_or] at h
      simp only [checkInputs, hk, ne_eq, not_true_eq_false, if_false]
      exact ih (i + 1) h
    · exact ⟨"SetCallback function argument #" ++ toString (i + 1) ++ " must be a function",
        by simp [checkInputs, hk]⟩


theorem bind_of_ok (b : Binder) (c : Collection) (v : FuncVar) (w : Option FuncVar)
    (inv ini : Callable) (h : b.doBind c v.typ (w.map (fun x => x.typ)) = .ok (inv, ini)) :
    c.Bind b v w
      = (none, { v with fn := some inv }, w.map (fun x => { x with fn := some ini })) := by
  simp [Collection.Bind, Collection.bindFast, h]

theorem bind_of_error (b : Binder) (c : Collection) (v : FuncVar) (w : Option FuncVar)
    (err : String) (h : b.doBind c v.typ (w.map (fun x => x.typ)) = .error err) :
    c.Bind b v w
      = (some (.njectError err (b.captureDoBindDebugging c v.typ (w.map (fun x => x.typ)))),
         v, w) := by
  simp [Collection.Bind, Collection.bindFast, h]

theorem setCallback_one_input (b : Binder) (c : Collection) (s : GoValue) (in0 : ParamType)
    (hwf : wellFormedSetter s = true) (hins : s.typ.ins = [in0]) :
    c.SetCallback b (some s)
      = if (c.Bind b (reflectNew in0) none).1 = none then
          { ret := .ok (c.Bind b (reflectNew in0) none).1, binds := [(in0, none)],
            setterCalls := [[(c.Bind b (reflectNew in0) none).2.1.fn]] }
        else { ret := .ok (c.Bind b (reflectNew in0) none).1, binds := [(in0, none)],
               setterCalls := [] } := by
  simp only [wellFormedSetter, Bool.and_eq_true, decide_eq_true_eq, Bool.not_eq_true'] at hwf
  obtain ⟨⟨⟨⟨⟨h1, _⟩, _⟩, h4⟩, h5⟩, h6⟩ := hwf
  have hchk := checkInputs_none s.typ.ins 0 h5
  unfold Collection.SetCallback
  simp only [h1, ne_eq, not_true_eq_false, if_false, hchk, h4, gt_iff_lt, lt_self_iff_false]
  rw [hins]
  simp [setterCall, h6]

theorem setCallback_two_inputs (b : Binder) (c : Collection) (s : GoValue)
    (in0 in1 : ParamType) (hwf : wellFormedSetter s = true) (hins : s.typ.ins = [in0, in1]) :
    c.SetCallback b (some s)
      = if (c.Bind b (reflectNew in0) (some (reflectNew in1))).1 = none then
          { ret := .ok (c.Bind b (reflectNew in0) (some (reflectNew in1))).1,
            binds := [(in0, some in1)],
            setterCalls := [[(c.Bind b (reflectNew in0) (some (reflectNew in1))).2.1.fn,
              ((c.Bind b (reflectNew in0) (some (reflectNew in1))).2.2.map
                (fun v => v.fn)).getD none]] }
        else { ret := .ok (c.Bind b (reflectNew in0) (some (reflectNew in1))).1,
               binds := [(in0, some in1)], setterCalls := [] } := by
  simp only [wellFormedSetter, Bool.and_eq_true, decide_eq_true_eq, Bool.not_eq_true'] at hwf
  obtain ⟨⟨⟨⟨⟨h1, _⟩, _⟩, h4⟩, h5⟩, h6⟩ := hwf
  have hchk := checkInputs_none s.typ.ins 0 h5
  unfold Collection.SetCallback
  simp only [h1, ne_eq, not_true_eq_false, if_false, hchk, h4, gt_iff_lt, lt_self_iff_false]
  rw [hins]
  simp [setterCall, h6]

/-! ## Lemmas on slices and Append -/

theorem writeFrom_closed (xs : List ProviderPtr) :
    ∀ (done todo : List ProviderPtr), xs.length ≤ todo.length →
      writeFrom (done ++ todo) done.length xs = done ++ xs ++ todo.drop xs.length := by
  induction xs with
  | nil => intro done todo _; simp [writeFrom]
  | cons x rest ih =>
    intro done todo hlen
    cases todo with
    | nil => simp at hlen
    | cons t todo =>
      have hlen2 : rest.length ≤ todo.length := by simpa using hlen
      have hset : (done ++ t :: todo).set done.length x = (done ++ [x]) ++ todo := by
        induction done with
        | nil => rfl
        | cons d ds ihd => simp [ihd]
      have e2 : done.length + 1 = (done ++ [x]).length := by simp
      simp only [writeFrom, hset]
      rw [e2, ih _ _ hlen2]
      simp

theorem writeFrom_within (cells xs : List ProviderPtr) (i : Nat)
    (h : i + xs.length ≤ cells.length) :
    writeFrom cells i xs = cells.take i ++ xs ++ cells.drop (i + xs.length) := by
  have hi : i ≤ cells.length := by omega
  have h1 := writeFrom_closed xs (cells.take i) (cells.drop i) (by simp; omega)
  rw [List.take_append_drop, List.length_take, Nat.min_eq_left hi] at h1
  rw [h1, List.drop_drop]

theorem cells_append_left (h extra : Heap) (i : Nat) (hi : i < h.length) :
    (h ++ extra).cells i = h.cells i := by
  simp [Heap.cells, List.getD_eq_getElem?_getD, List.getElem?_append_left hi]

theorem cells_append_length (h : Heap) (a : List ProviderPtr) :
    (h ++ [a]).cells h.length = a := by
  simp [Heap.cells, List.getD_eq_getElem?_getD]

theorem cells_set_self (h : Heap) (i : Nat) (a : List ProviderPtr) (hi : i < h.length) :
    Heap.cells (h.set i a) i = a := by
  simp [Heap.cells, List.getD_eq_getElem?_getD, List.getElem?_set, hi]

theorem read_append_left (h extra : Heap) (s : Slice) (hs : s.arr < h.length) :
    Heap.read (h ++ extra) s = Heap.read h s := by
  unfold Heap.read
  rw [cells_append_left h extra s.arr hs]

theorem take_prefix (a b : List ProviderPtr) (n : Nat) (hn : a.length = n) :
    (a ++ b).take n = a := by
  subst hn
  simp

theorem goAppend_read (grow : Nat → Nat → Nat) (h : Heap) (s : Slice) (xs : List ProviderPtr)
    (hs : h.holds s) :
    (goAppend grow h s xs).1.read (goAppend grow h s xs).2 = h.read s ++ xs ∧
    (goAppend grow h s xs).1.read s = h.read s := by
  obtain ⟨harr, hcap, hlen⟩ := hs
  have hlr : (h.read s).length = s.len := by
    unfold Heap.read
    rw [List.length_take]
    omega
  by_cases hfit : s.len + xs.length ≤ s.cap
  · have hg : goAppend grow h s xs
        = (h.set s.arr (writeFrom (h.cells s.arr) s.len xs),
           { s with len := s.len + xs.length }) := by
      simp [goAppend, hfit]
    have hw := writeFrom_within (h.cells s.arr) xs s.len (by omega)
    rw [hg]
    constructor
    · show List.take (s.len + xs.length) (Heap.cells (h.set s.arr _) s.arr) = _
      rw [cells_set_self _ _ _ harr, hw]
      exact take_prefix _ _ _ (by rw [List.length_append]; unfold Heap.read at hlr; omega)
    · show List.take s.len (Heap.cells (h.set s.arr _) s.arr) = _
      rw [cells_set_self _ _ _ harr, hw, List.append_assoc]
      exact take_prefix _ _ _ (by unfold Heap.read at hlr; exact hlr)
  · have hg : goAppend grow h s xs
        = (h ++ [h.read s ++ xs ++ List.replicate
              (max (grow s.cap (s.len + xs.length)) (s.len + xs.length)
                - (s.len + xs.length)) 0],
           { arr := h.length, len := s.len + xs.length,
             cap := max (grow s.cap (s.len + xs.length)) (s.len + xs.length) }) := by
      simp [goAppend, hfit]
    rw [hg]
    constructor
    · show List.take (s.len + xs.length) (Heap.cells (h ++ [_]) h.length) = _
      rw [cells_append_length]
      exact take_prefix _ _ _ (by rw [List.length_append]; omega)
    · exact read_append_left _ _ _ harr

theorem append_reads (grow : Nat → Nat → Nat) (h : Heap) (c : Collection) (name : String)
    (funcs : List ProviderPtr) (hc : h.holds c.contents) :
    (c.Append grow h name funcs).2.name = name ∧
    (c.Append grow h name funcs).1.read (c.Append grow h name funcs).2.contents
      = h.read c.contents ++ funcs ∧
    (c.Append grow h name funcs).1.read c.contents = h.read c.contents := by
  obtain ⟨harr, hcap, hlen⟩ := hc
  have hnew : Heap.read (h ++ [funcs])
      { arr := h.length, len := funcs.length, cap := funcs.length } = funcs := by
    unfold Heap.read
    rw [cells_append_length]
    simp
  have hholds : Heap.holds (h ++ [funcs]) c.contents :=
    ⟨by rw [List.length_append]; omega, by rw [cells_append_left _ _ _ harr]; exact hcap, hlen⟩
  have hg := goAppend_read grow (h ++ [funcs]) c.contents funcs hholds
  rw [read_append_left _ _ _ harr] at hg
  have happ : c.Append grow h name funcs
      = ((goAppend grow (h ++ [funcs]) c.contents funcs).1,
         { name := name, contents := (goAppend grow (h ++ [funcs]) c.contents funcs).2 }) := by
    simp only [Collection.Append, newCollection, hnew]
  rw [happ]
  exact ⟨rfl, hg.1, hg.2⟩

theorem cells_set_other (h : Heap) (i j : Nat) (a : List ProviderPtr) (hij : i ≠ j) :
    Heap.cells (h.set i a) j = h.cells j := by
  simp [Heap.cells, List.getD_eq_getElem?_getD, List.getElem?_set, hij]

theorem goAppend_fits (grow : Nat → Nat → Nat) (h : Heap) (s : Slice) (xs : List ProviderPtr)
    (hfit : s.len + xs.length ≤ s.cap) :
    goAppend grow h s xs
      = (h.set s.arr (writeFrom (h.cells s.arr) s.len xs),
         { arr := s.arr, len := s.len + xs.length, cap := s.cap }) := by
  simp [goAppend, hfit]

theorem goAppend_grows (grow : Nat → Nat → Nat) (h : Heap) (s : Slice) (xs : List ProviderPtr)
    (hfit : ¬ s.len + xs.length ≤ s.cap) :
    goAppend grow h s xs
      = (h ++ [h.read s ++ xs ++ List.replicate
            (max (grow s.cap (s.len + xs.length)) (s.len + xs.length)
              - (s.len + xs.length)) 0],
         { arr := h.length, len := s.len + xs.length,
           cap := max (grow s.cap (s.len + xs.length)) (s.len + xs.length) }) := by
  simp [goAppend, hfit]

theorem goAppend_frame (grow : Nat → Nat → Nat) (h : Heap) (s : Slice) (xs : List ProviderPtr)
    (hs : h.holds s) (t : Slice) (ht : t.arr < h.length)
    (hsep : t.arr ≠ s.arr ∨ t.len ≤ s.len) :
    (goAppend grow h s xs).1.read t = h.read t := by
  obtain ⟨harr, hcap, hlen⟩ := hs
  by_cases hfit : s.len + xs.length ≤ s.cap
  · rw [goAppend_fits grow h s xs hfit]
    show List.take t.len (Heap.cells (h.set s.arr _) t.arr) = List.take t.len (h.cells t.arr)
    by_cases hta : t.arr = s.arr
    · have htl : t.len ≤ s.len := by
        rcases hsep with hne | hle
        · exact absurd hta hne
        · exact hle
      rw [hta, cells_set_self _ _ _ harr, writeFrom_within _ _ _ (by omega), List.append_assoc,
        List.take_append_of_le_length (by rw [List.length_take]; omega), List.take_take,
        Nat.min_eq_left htl]
    · rw [cells_set_other _ _ _ _ (fun e => hta e.symm)]
  · rw [goAppend_grows grow h s xs hfit]
    exact read_append_left _ _ _ ht

theorem goAppend_keeps_holds (grow : Nat → Nat → Nat) (h : Heap) (s : Slice)
    (xs : List ProviderPtr) (hs : h.holds s) :
    (goAppend grow h s xs).1.holds s ∧ h.length ≤ (goAppend grow h s xs).1.length := by
  obtain ⟨harr, hcap, hlen⟩ := hs
  by_cases hfit : s.len + xs.length ≤ s.cap
  · rw [goAppend_fits grow h s xs hfit]
    refine ⟨⟨by simpa using harr, ?_, hlen⟩, by simp⟩
    show (Heap.cells (h.set s.arr _) s.arr).length = s.cap
    rw [cells_set_self _ _ _ harr, writeFrom_within _ _ _ (by omega)]
    simp only [List.length_append, List.length_take, List.length_drop]
    omega
  · rw [goAppend_grows grow h s xs hfit]
    refine ⟨⟨by simp; omega, ?_, hlen⟩, by simp⟩
    show (Heap.cells (h ++ [_]) s.arr).length = s.cap
    rw [cells_append_left _ _ _ harr]
    exact hcap

theorem goAppend_result_slice (grow : Nat → Nat → Nat) (h : Heap) (s : Slice)
    (xs : List ProviderPtr) (hs : h.holds s) (hfull : s.len = s.cap) :
    (goAppend grow h s xs).2.arr < (goAppend grow h s xs).1.length ∧
    ((goAppend grow h s xs).2.arr ≠ s.arr ∨ (goAppend grow h s xs).2.len ≤ s.len) := by
  obtain ⟨harr, hcap, hlen⟩ := hs
  by_cases hfit : s.len + xs.length ≤ s.cap
  · rw [goAppend_fits grow h s xs hfit]
    exact ⟨by simpa using harr, Or.inr (by show s.len + xs.length ≤ s.len; omega)⟩
  · rw [goAppend_grows grow h s xs hfit]
    exact ⟨by simp, Or.inl (by show h.length ≠ s.arr; omega)⟩

theorem append_unfold (grow : Nat → Nat → Nat) (h : Heap) (c : Collection) (name : String)
    (funcs : List ProviderPtr) :
    c.Append grow h name funcs
      = ((goAppend grow (h ++ [funcs]) c.contents funcs).1,
         { name := name, contents := (goAppend grow (h ++ [funcs]) c.contents funcs).2 }) := by
  have hnew : Heap.read (h ++ [funcs])
      { arr := h.length, len := funcs.length, cap := funcs.length } = funcs := by
    unfold Heap.read
    rw [cells_append_length]
    simp
  simp only [Collection.Append, newCollection, hnew]

theorem holds_append_left (h extra : Heap) (s : Slice) (hs : h.holds s) :
    Heap.holds (h ++ extra) s :=
  ⟨by rw [List.length_append]; have := hs.1; omega,
   by rw [cells_append_left _ _ _ hs.1]; exact hs.2.1, hs.2.2⟩

/-! ## Further lemmas on the map -/

theorem mapLookup_append_miss (m : GoMap) (k k2 : Key) (out : List Value)
    (h : mapLookup m k2 = .ok none) (hne : k ≠ k2) :
    mapLookup (m ++ [(k, out)]) k2 = .ok none := by
  unfold mapLookup at h ⊢
  by_cases hk : keyHashable k2 = true
  · simp only [hk, if_true, Except.ok.injEq] at h ⊢
    rw [find_append_single, h]
    simp [hne]
  · simp [hk] at h

theorem mapLookup_append_self (m : GoMap) (k : Key) (out : List Value)
    (h : mapLookup m k = .ok none) :
    mapLookup (m ++ [(k, out)]) k = .ok (some out) := by
  unfold mapLookup at h ⊢
  by_cases hk : keyHashable k = true
  · simp only [hk, if_true, Except.ok.injEq] at h ⊢
    rw [find_append_single, h]
    simp
  · simp [hk] at h

theorem lookup_of_absent (m : GoMap) (k : Key) (hk : keyHashable k = true)
    (h : m.find? (fun e => e.1 == k) = none) : mapLookup m k = .ok none := by
  simp [mapLookup, hk, h]

/-! ## Lemmas on the bounds of the key -/

theorem fillInputs_uninterfaceable (inp : List Value) :
    ∀ (key : List Iface) (i : Nat), interfaceOkay inp = false → i + inp.length ≤ key.length →
      fillInputs key i inp = .error .cannotInterface := by
  induction inp with
  | nil => intro _ _ h _; simp [interfaceOkay] at h
  | cons v rest ih =>
    intro key i hok hlen
    rw [interfaceOkay_cons] at hok
    cases hro : v.ro with
    | true => simp [fillInputs, Value.Interface, hro]
    | false =>
      simp only [hro, Bool.not_false, Bool.true_and] at hok
      have hi : i < key.length := by simp at hlen; omega
      simp only [fillInputs, Value.Interface, hro, Bool.false_eq_true, if_false, hi, if_true]
      exact ih _ _ hok (by simp only [List.length_set]; simp at hlen; omega)

theorem fillKey_uninterfaceable (n : Nat) (inp : List Value) (hok : interfaceOkay inp = false)
    (hlen : inp.length ≤ n) :
    fillKeyFromInputs (zeroKey n) inp = .error .cannotInterface := by
  simp [fillKeyFromInputs, fillInputs_uninterfaceable inp (zeroKey n) 0 hok
    (by simpa [zeroKey] using hlen)]

theorem paddedKey_length (n : Nat) (inp : List Value) (hlen : inp.length ≤ n) :
    (paddedKey n inp).length = n := by
  simp [paddedKey]; omega

theorem paddedKey_input (n : Nat) (inp : List Value) (i : Nat) (hi : i < inp.length) :
    (paddedKey n inp)[i]? = inp[i]?.map Value.val := by
  unfold paddedKey
  rw [List.getElem?_append_left (by simpa using hi)]
  simp

theorem paddedKey_rest (n : Nat) (inp : List Value) (i : Nat) (h1 : inp.length ≤ i)
    (h2 : i < n) : (paddedKey n inp)[i]? = some (Iface.str "") := by
  unfold paddedKey
  rw [List.getElem?_append_right (by simpa using h1)]
  simp [List.getElem?_replicate]
  omega

theorem cachedCall_no_index_panic (n : Nat) (fv : CanCall) (st : CacheState)
    (inp : List Value) (hlen : inp.length ≤ n) :
    (cachedCall n fv st inp).1 ≠ .error .indexOutOfRange := by
  cases hok : interfaceOkay inp with
  | false => rw [cachedCall_bypass n fv st inp hok]; simp
  | true =>
    have hfill := fillKey_closed n inp hok hlen
    cases hh : keyHashable (paddedKey n inp) with
    | false => rw [cachedCall_unhashable n fv st inp _ hok hfill hh]; simp
    | true =>
      cases hf : st.cache.find? (fun e => e.1 == paddedKey n inp) with
      | none =>
        rw [cachedCall_miss n fv st inp _ hok hfill (lookup_of_absent _ _ hh hf)]; simp
      | some e =>
        rw [cachedCall_hit n fv st inp _ e.2 hok hfill (by simp [mapLookup, hh, hf])]; simp

/-! ## Lemmas on combineMiddleware -/

theorem take_succ_getElem {A : Type} (m : List A) (k : Nat) (hlt : k < m.length) :
    m.take (k + 1) = m.take k ++ [m[k]] := by
  rw [List.take_succ, List.getElem?_eq_getElem hlt]
  rfl

theorem combineLoop_fold {H : Type} (m : List (H → H)) :
    ∀ (k : Nat) (combined : H → H), k ≤ m.length →
      ∃ g, combineLoop m k combined = some g ∧
        ∀ h, g h = (m.take k).foldr (fun f acc => f acc) (combined h) := by
  intro k
  induction k with
  | zero => intro combined _; exact ⟨combined, rfl, fun h => by simp⟩
  | succ k ih =>
    intro combined hk
    have hlt : k < m.length := by omega
    obtain ⟨g, hg, hfold⟩ := ih (fun h => m[k] (combined h)) (by omega)
    refine ⟨g, ?_, ?_⟩
    · simp only [combineLoop, List.getElem?_eq_getElem hlt]
      exact hg
    · intro h
      rw [hfold h, take_succ_getElem m k hlt, List.foldr_append]
      rfl

theorem combineGeneral_fold {H : Type} (m : List (H → H)) (hm : m ≠ []) :
    ∃ g, combineGeneral m = some g ∧ ∀ h, g h = m.foldr (fun f acc => f acc) h := by
  have hpos : 0 < m.length := List.length_pos.mpr hm
  have hlt : m.length - 1 < m.length := by omega
  obtain ⟨g, hg, hfold⟩ := combineLoop_fold m (m.length - 1) (m[m.length - 1]) (by omega)
  refine ⟨g, ?_, ?_⟩
  · simp only [combineGeneral, List.getElem?_eq_getElem hlt]
    rw [if_neg (by omega)]
    exact hg
  · intro h
    rw [hfold h]
    have hsplit : m = m.take (m.length - 1) ++ [m[m.length - 1]] := by
      have h1 := take_succ_getElem m (m.length - 1) hlt
      have h2 : m.length - 1 + 1 = m.length := by omega
      rw [h2, List.take_length] at h1
      exact h1
    have hgoal : m.foldr (fun f acc => f acc) h
        = (m.take (m.length - 1) ++ [m[m.length - 1]]).foldr (fun f acc => f acc) h :=
      congrArg (fun l => List.foldr (fun f acc => f acc) h l) hsplit
    rw [hgoal, List.foldr_append]
    rfl

theorem combineMiddleware_fold {H : Type} (m : List (H → H)) :
    ∃ g, combineMiddleware m = some g ∧ ∀ h, g h = m.foldr (fun f acc => f acc) h := by
  match m with
  | [] => exact ⟨fun h => h, rfl, fun _ => rfl⟩
  | [f] => exact ⟨f, rfl, fun _ => rfl⟩
  | f :: f2 :: rest => exact combineGeneral_fold (f :: f2 :: rest) (by simp)

/-! ## Lemmas on the panic errors -/

theorem isPanicError_withStack (e : ErrorValue) :
    isPanicError (errorsWithStack e) = isPanicError e := by
  cases e <;> rfl

theorem isPanicError_wrap (l : Layer) (e : ErrorValue) :
    isPanicError (l.wrap e) = isPanicError e := by
  cases l
  · rfl
  · rfl
  · exact isPanicError_withStack e

theorem isPanicError_wrapAll (layers : List Layer) (e : ErrorValue) :
    isPanicError (wrapAll layers e) = isPanicError e := by
  induction layers with
  | nil => rfl
  | cons l rest ih => rw [wrapAll, isPanicError_wrap, ih]

theorem isPanicError_none (err : ErrorValue) (h : err.hasPanic = false) :
    isPanicError err = (panicError.zero, false) := by
  induction err with
  | nil => rfl
  | panic pe => simp [ErrorValue.hasPanic] at h
  | plain _ => rfl
  | causer c ih => exact ih h
  | unwraper u ih => exact ih h
  | both c u ihc _ =>
    simp only [ErrorValue.hasPanic, Bool.or_eq_false_iff] at h
    exact ihc h.1

theorem setErrorOnPanic_stored (sprint : Iface → String) (stack : String) (r : Iface)
    (ep : ErrorValue) (log : BasicLogger) (hr : r ≠ Iface.nil) :
    (SetErrorOnPanic sprint stack r ep log).1
      = .both (.panic { msg := sprint r, r := r, stack := stack })
          (.panic { msg := sprint r, r := r, stack := stack }) := by
  simp [SetErrorOnPanic, hr, errorsWithStack]

/-! ## Lemmas on bound chains -/

theorem runChain_initialized (c : BoundChain) (log : List (List Value)) (vals : List Value)
    (calls : List ChainCall) :
    runChain c { staticRuns := log, cached := some vals } calls
      = (calls.map (afterInit c vals), { staticRuns := log, cached := some vals }) := by
  induction calls with
  | nil => rfl
  | cons call rest ih =>
    cases call with
    | init args => simp [runChain, BoundChain.initFunc, ih, afterInit]
    | invoke args => simp [runChain, BoundChain.invokeFunc, ih, afterInit]

/-! # Properties -/

/-- C1 (counterexample): with the one-input list holding an interfaceable slice, a cacher of
arity 1 panics on both calls and never invokes the wrapped function. -/
theorem memo_equal_inputs_counterexample :
    interfaceOkay [sliceValue] = true ∧ ([sliceValue].length : Int) ≤ 1 ∧
    runCalls (defineCacher 0 countingFv 1).call (freshState []) [[sliceValue], [sliceValue]]
      = ([(.error .unhashable, []), (.error .unhashable, [])], freshState []) := by
  decide

/-- C1 (amended): for a cacher of arity `l ≤ 90` and an input list of length at most `l`
whose values are all interfaceable and usable as map keys, in a state whose cache has no
entry for these inputs yet (as right after `defineCacher`): two calls with that list invoke
the wrapped function exactly once (on the first call), and both calls return the output of
that invocation. -/
theorem memo_equal_inputs_once (id : Int) (fv : CanCall) (l : Int) (st : CacheState)
    (inp : List Value) (hl : l ≤ 90) (hok : interfaceOkay inp = true)
    (hkey : keyable inp = true) (hlen : (inp.length : Int) ≤ l)
    (hnew : st.cache.find? (fun e => e.1 == paddedKey (tierSize l) inp) = none) :
    runCalls (defineCacher id fv l).call st [inp, inp]
      = ([(.ok (fv st.calls inp), st.calls ++ [inp]),
          (.ok (fv st.calls inp), st.calls ++ [inp])],
         { cache := st.cache ++ [(paddedKey (tierSize l) inp, fv st.calls inp)],
           calls := st.calls ++ [inp] }) := by
  have hmiss := lookup_of_absent st.cache _ (by rw [keyHashable_padded]; exact hkey) hnew
  have hfill := fillKey_closed (tierSize l) inp hok (tierSize_ge l _ hl hlen)
  have h1 := cachedCall_miss (tierSize l) fv st inp _ hok hfill hmiss
  have h2 := cachedCall_hit (tierSize l) fv
    { cache := st.cache ++ [(paddedKey (tierSize l) inp, fv st.calls inp)],
      calls := st.calls ++ [inp] }
    inp _ (fv st.calls inp) hok hfill (mapLookup_append_self _ _ _ hmiss)
  simp only [runCalls, defineCacher_call id fv l hl, h1, h2]

theorem memo_equal_inputs_once_witness :
    runCalls (defineCacher 0 countingFv 3).call (freshState []) [[intValue 3], [intValue 3]]
      = ([(.ok (countingFv (freshState []).calls [intValue 3]),
           (freshState []).calls ++ [[intValue 3]]),
          (.ok (countingFv (freshState []).calls [intValue 3]),
           (freshState []).calls ++ [[intValue 3]])],
         { cache := (freshState []).cache
             ++ [(paddedKey (tierSize 3) [intValue 3],
                  countingFv (freshState []).calls [intValue 3])],
           calls := (freshState []).calls ++ [[intValue 3]] }) :=
  memo_equal_inputs_once 0 countingFv 3 (freshState []) [intValue 3] (by decide) (by decide)
    (by decide) (by decide) (by decide)

/-- C2 (counterexample): the interfaceable one-input lists `[slice]` and `[1]` differ, and so
do their keys, yet calling a cacher of arity 1 with one and then the other invokes the
wrapped function once only: the first call panics before invoking it. -/
theorem memo_distinct_inputs_counterexample :
    interfaceOkay [sliceValue] = true ∧ interfaceOkay [intValue 1] = true ∧
    [sliceValue].length = [intValue 1].length ∧ ([sliceValue].length : Int) ≤ 1 ∧
    [sliceValue] ≠ [intValue 1] ∧
    fillKeyFromInputs (zeroKey 3) [sliceValue] ≠ fillKeyFromInputs (zeroKey 3) [intValue 1] ∧
    runCalls (defineCacher 0 countingFv 1).call (freshState []) [[sliceValue], [intValue 1]]
      = ([(.error .unhashable, []), (.ok [intValue 0], [[intValue 1]])],
         { cache := [(paddedKey 3 [intValue 1], [intValue 0])], calls := [[intValue 1]] }) := by
  decide

/-- C2 (amended): for a cacher of arity `l ≤ 90` and two input lists of the same length (at
most `l`), all of whose values are interfaceable and usable as map keys, that differ, in a
state whose cache has no entry for either yet (as right after `defineCacher`):
`fillKeyFromInputs` builds different keys, and calling the cacher with one and then the other
invokes the wrapped function on both calls, the second call returning the output of its own
invocation. -/
theorem memo_distinct_inputs_twice (id : Int) (fv : CanCall) (l : Int)
    (st : CacheState) (a b : List Value) (hl : l ≤ 90)
    (hoka : interfaceOkay a = true) (hokb : interfaceOkay b = true)
    (hka : keyable a = true) (hkb : keyable b = true)
    (hlen : a.length = b.length) (hlenl : (a.length : Int) ≤ l) (hne : a ≠ b)
    (hnewa : st.cache.find? (fun e => e.1 == paddedKey (tierSize l) a) = none)
    (hnewb : st.cache.find? (fun e => e.1 == paddedKey (tierSize l) b) = none) :
    (∃ ka kb, fillKeyFromInputs (zeroKey (tierSize l)) a = .ok ka ∧
        fillKeyFromInputs (zeroKey (tierSize l)) b = .ok kb ∧ ka ≠ kb) ∧
    (runCalls (defineCacher id fv l).call st [a, b]).1
      = [(.ok (fv st.calls a), st.calls ++ [a]),
         (.ok (fv (st.calls ++ [a]) b), st.calls ++ [a] ++ [b])] := by
  have hma := lookup_of_absent st.cache _ (by rw [keyHashable_padded]; exact hka) hnewa
  have hmb := lookup_of_absent st.cache _ (by rw [keyHashable_padded]; exact hkb) hnewb
  have hfa := fillKey_closed (tierSize l) a hoka (tierSize_ge l _ hl hlenl)
  have hfb := fillKey_closed (tierSize l) b hokb (tierSize_ge l _ hl (hlen ▸ hlenl))
  have hkne : paddedKey (tierSize l) a ≠ paddedKey (tierSize l) b :=
    fun h => hne (paddedKey_injective _ a b hoka hokb hlen h)
  refine ⟨⟨_, _, hfa, hfb, hkne⟩, ?_⟩
  have h1 := cachedCall_miss (tierSize l) fv st a _ hoka hfa hma
  have h2 := cachedCall_miss (tierSize l) fv
    { cache := st.cache ++ [(paddedKey (tierSize l) a, fv st.calls a)],
      calls := st.calls ++ [a] }
    b _ hokb hfb (mapLookup_append_miss _ _ _ _ hmb hkne)
  simp only [runCalls, defineCacher_call id fv l hl, h1, h2]

theorem memo_distinct_inputs_twice_witness :
    (∃ ka kb, fillKeyFromInputs (zeroKey (tierSize 2)) [intValue 3, strValue "x"] = .ok ka ∧
        fillKeyFromInputs (zeroKey (tierSize 2)) [intValue 3, strValue "y"] = .ok kb ∧
        ka ≠ kb) ∧
    (runCalls (defineCacher 0 countingFv 2).call (freshState [])
        [[intValue 3, strValue "x"], [intValue 3, strValue "y"]]).1
      = [(.ok (countingFv (freshState []).calls [intValue 3, strValue "x"]),
          (freshState []).calls ++ [[intValue 3, strValue "x"]]),
         (.ok (countingFv ((freshState []).calls ++ [[intValue 3, strValue "x"]])
            [intValue 3, strValue "y"]),
          (freshState []).calls ++ [[intValue 3, strValue "x"]]
            ++ [[intValue 3, strValue "y"]])] :=
  memo_distinct_inputs_twice 0 countingFv 2 (freshState []) [intValue 3, strValue "x"]
    [intValue 3, strValue "y"] (by decide) (by decide) (by decide) (by decide) (by decide)
    (by decide) (by decide) (by decide) (by decide) (by decide)

/-- C3 (counterexample): an input list holding an interfaceable slice is not usable as a map
key, yet the cacher does not call the wrapped function: the call panics. -/
theorem unkeyable_input_counterexample :
    keyable [sliceValue] = false ∧
    (defineCacher 0 countingFv 1).call (freshState []) [sliceValue]
      = (.error .unhashable, freshState []) := by
  decide

/-- C3 (amended): for every cacher built by `defineCacher` and every input list in which
some value is not interfaceable (`CanInterface` is false), the call invokes the wrapped
function directly, returns its output, raises no failure and leaves the cache unchanged. -/
theorem uninterfaceable_input_bypasses (id : Int) (fv : CanCall) (l : Int) (st : CacheState)
    (inp : List Value) (h : interfaceOkay inp = false) :
    (defineCacher id fv l).call st inp
      = (.ok (fv st.calls inp), { cache := st.cache, calls := st.calls ++ [inp] }) := by
  by_cases hl : l ≤ 90
  · rw [defineCacher_call id fv l hl, cachedCall_bypass _ fv st inp h]
  · rw [defineCacher_direct id fv l (by omega)]; rfl

theorem uninterfaceable_input_bypasses_witness :
    (defineCacher 0 countingFv 2).call
        { cache := [(paddedKey 3 [intValue 7], [intValue 0])], calls := [[intValue 7]] }
        [hiddenValue]
      = (.ok (countingFv [[intValue 7]] [hiddenValue]),
         { cache := [(paddedKey 3 [intValue 7], [intValue 0])],
           calls := [[intValue 7]] ++ [[hiddenValue]] }) :=
  uninterfaceable_input_bypasses 0 countingFv 2 _ [hiddenValue] (by decide)

/-- C4: for every declared arity `l > 90` the cacher stores nothing: every call, in every
state, invokes the wrapped function and returns its output, the cache stays as it was, and
two calls with equal inputs invoke the function twice; `defineCacher` reports the arity on
the diagnostic channel and returns the closure. -/
theorem no_caching_above_ninety (id : Int) (fv : CanCall) (l : Int) (h : 90 < l)
    (st : CacheState) (inp : List Value) :
    (defineCacher id fv l).call st inp
      = (.ok (fv st.calls inp), { cache := st.cache, calls := st.calls ++ [inp] }) ∧
    runCalls (defineCacher id fv l).call st [inp, inp]
      = ([(.ok (fv st.calls inp), st.calls ++ [inp]),
          (.ok (fv (st.calls ++ [inp]) inp), st.calls ++ [inp] ++ [inp])],
         { cache := st.cache, calls := st.calls ++ [inp] ++ [inp] }) ∧
    (defineCacher id fv l).debug = debugf "number of arguments exceeds maximum!  " l := by
  have hd := defineCacher_direct id fv l h
  refine ⟨by rw [hd]; rfl, by simp only [runCalls, hd, directCall], ?_⟩
  unfold defineCacher
  split_ifs <;> first | rfl | omega

theorem no_caching_above_ninety_witness :
    (defineCacher 0 countingFv 91).call (freshState []) [intValue 3]
      = (.ok (countingFv (freshState []).calls [intValue 3]),
         { cache := (freshState []).cache, calls := (freshState []).calls ++ [[intValue 3]] }) ∧
    runCalls (defineCacher 0 countingFv 91).call (freshState []) [[intValue 3], [intValue 3]]
      = ([(.ok (countingFv (freshState []).calls [intValue 3]),
           (freshState []).calls ++ [[intValue 3]]),
          (.ok (countingFv ((freshState []).calls ++ [[intValue 3]]) [intValue 3]),
           (freshState []).calls ++ [[intValue 3]] ++ [[intValue 3]])],
         { cache := (freshState []).cache,
           calls := (freshState []).calls ++ [[intValue 3]] ++ [[intValue 3]] }) ∧
    (defineCacher 0 countingFv 91).debug = debugf "number of arguments exceeds maximum!  " 91 :=
  no_caching_above_ninety 0 countingFv 91 (by decide) (freshState []) [intValue 3]

/-- C5: cache entries are never evicted or overwritten. For a cacher of arity `l ≤ 90`, once
the cache maps a key to an output, then after every further sequence of calls the cache still
maps that key to the same output, and every call whose inputs give that key returns that
output without invoking the wrapped function. -/
theorem cache_entries_persist (id : Int) (fv : CanCall) (l : Int) (hl : l ≤ 90)
    (st : CacheState) (k : Key) (out : List Value)
    (hstored : mapLookup st.cache k = .ok (some out)) (inps : List (List Value)) :
    mapLookup (runCalls (defineCacher id fv l).call st inps).2.cache k = .ok (some out) ∧
    ∀ inp : List Value, fillKeyFromInputs (zeroKey (tierSize l)) inp = .ok k →
      (defineCacher id fv l).call (runCalls (defineCacher id fv l).call st inps).2 inp
        = (.ok out, (runCalls (defineCacher id fv l).call st inps).2) := by
  rw [defineCacher_call id fv l hl]
  have hkeep := runCalls_keeps (tierSize l) fv k out inps st hstored
  refine ⟨hkeep, ?_⟩
  intro inp hk
  exact cachedCall_hit _ fv _ inp k out (fillKey_ok_interfaceOkay _ _ _ hk) hk hkeep

theorem cache_entries_persist_witness :
    mapLookup (runCalls (defineCacher 0 countingFv 2).call
        { cache := [(paddedKey 3 [intValue 7], [intValue 0])], calls := [[intValue 7]] }
        [[intValue 8], [hiddenValue], [sliceValue], [intValue 7]]).2.cache
        (paddedKey 3 [intValue 7]) = .ok (some [intValue 0]) ∧
    ∀ inp : List Value, fillKeyFromInputs (zeroKey (tierSize 2)) inp
        = .ok (paddedKey 3 [intValue 7]) →
      (defineCacher 0 countingFv 2).call (runCalls (defineCacher 0 countingFv 2).call
        { cache := [(paddedKey 3 [intValue 7], [intValue 0])], calls := [[intValue 7]] }
        [[intValue 8], [hiddenValue], [sliceValue], [intValue 7]]).2 inp
        = (.ok [intValue 0], (runCalls (defineCacher 0 countingFv 2).call
        { cache := [(paddedKey 3 [intValue 7], [intValue 0])], calls := [[intValue 7]] }
        [[intValue 8], [hiddenValue], [sliceValue], [intValue 7]]).2) :=
  cache_entries_persist 0 countingFv 2 (by decide) _ _ _ (by decide) _

/-- C6 (counterexample): with arity 2 the inputs `["a"]` and `["a", ""]` get the same
three-slot key, so the cacher answers the second call from the entry of the first, while a
cache keyed by the exact input list invokes the function again. -/
theorem tiering_counterexample :
    (∀ inp ∈ [[strValue "a"], [strValue "a", strValue ""]], ((inp.length : Nat) : Int) ≤ 2) ∧
    (runCalls (defineCacher 0 countingFv 2).call (freshState [])
        [[strValue "a"], [strValue "a", strValue ""]]).1
      = [(.ok [intValue 0], [[strValue "a"]]), (.ok [intValue 0], [[strValue "a"]])] ∧
    runRef countingFv { cache := [], calls := [] } [[strValue "a"], [strValue "a", strValue ""]]
      = [(.ok [intValue 0], [[strValue "a"]]),
         (.ok [intValue 1], [[strValue "a"], [strValue "a", strValue ""]])] ∧
    (runCalls (defineCacher 0 countingFv 2).call (freshState [])
        [[strValue "a"], [strValue "a", strValue ""]]).1
      ≠ runRef countingFv { cache := [], calls := [] }
        [[strValue "a"], [strValue "a", strValue ""]] := by
  decide

/-- C6 (amended): for every `l ≤ 90` and every sequence of calls whose input lists all have
one common length `m ≤ l` and hold only interfaceable values usable as map keys, the cacher
chosen for `l`, started fresh, returns the same outputs and invokes the wrapped function on
the same calls as the reference cache keyed by the exact list of input values. -/
theorem tiering_refines_reference (id : Int) (fv : CanCall) (l : Int) (hl : l ≤ 90) (m : Nat)
    (hm : (m : Int) ≤ l) (calls0 : List (List Value)) (inps : List (List Value))
    (hgood : ∀ inp ∈ inps, inp.length = m ∧ interfaceOkay inp = true ∧ keyable inp = true) :
    (runCalls (defineCacher id fv l).call (freshState calls0) inps).1
      = runRef fv { cache := [], calls := calls0 } inps := by
  rw [defineCacher_call id fv l hl]
  apply agree_run (tierSize l) m (tierSize_ge l m hl hm) fv inps _ _ _ hgood
  refine ⟨rfl, ?_⟩
  intro inp _ _ hkey
  simp [freshState, mapLookup, keyHashable_padded, hkey]

theorem tiering_refines_reference_witness :
    (runCalls (defineCacher 0 countingFv 5).call (freshState [])
        [[intValue 1, strValue ""], [intValue 2, strValue "b"], [intValue 1, strValue ""]]).1
      = runRef countingFv { cache := [], calls := [] }
        [[intValue 1, strValue ""], [intValue 2, strValue "b"], [intValue 1, strValue ""]] :=
  tiering_refines_reference 0 countingFv 5 (by decide) 2 (by decide) [] _ (by decide)

/-- C7: every provider obtained from an unannotated provider by a finite composition of the
annotation operations `Provide`, `MustCache`, `Cacheable`, `NotCacheable`, `Memoize`,
`Required`, `Desired`, `MustConsume`, `ConsumptionOptional`, `callsInner` and `Loose` has
`cacheable` set whenever it has `memoize` set, and whenever it has `mustCache` set. -/
theorem memoize_implies_cacheable (anns : List Annot) (name : String) :
    ((annotate anns (.fn name)).memoize = true → (annotate anns (.fn name)).cacheable = true) ∧
    ((annotate anns (.fn name)).mustCache = true →
      (annotate anns (.fn name)).cacheable = true) :=
  annotate_flagsOk anns (.fn name) ⟨fun h => by simp [newThing] at h, fun h => by simp [newThing] at h⟩

theorem memoize_implies_cacheable_witness :
    (annotate [.memoize, .notCacheable, .provide "square", .required] (.fn "square")).memoize
      = true ∧
    (annotate [.memoize, .notCacheable, .provide "square", .required] (.fn "square")).cacheable
      = true ∧
    (annotate [.mustCache, .loose] (.fn "f")).mustCache = true ∧
    (annotate [.mustCache, .loose] (.fn "f")).cacheable = true :=
  ⟨by decide,
   (memoize_implies_cacheable [.memoize, .notCacheable, .provide "square", .required]
      "square").1 (by decide),
   by decide, (memoize_implies_cacheable [.mustCache, .loose] "f").2 (by decide)⟩

/-- C8 (failing input): a collection `c` of three providers whose slice has a spare cell
(as `Append` itself produces from a two-provider collection when the run-time doubles the
capacity). `x := c.Append("x", 4)` and then `y := c.Append("y", 5)` share that cell: after
the second call the contents of `x` end in `5`, the provider appended for `y`, although
right after the first call they ended in `4`; the contents of `c` stay as they were. -/
theorem append_twice_shares_cell :
    ((newCollection [] "c0" [1, 2]).2.Append growDouble (newCollection [] "c0" [1, 2]).1
        "c" [3]) = ([[1, 2], [3], [1, 2, 3, 0]],
                    { name := "c", contents := { arr := 2, len := 3, cap := 4 } }) ∧
    (Collection.Append growDouble [[1, 2], [3], [1, 2, 3, 0]]
        { name := "c", contents := { arr := 2, len := 3, cap := 4 } } "x" [4])
      = ([[1, 2], [3], [1, 2, 3, 4], [4]],
         { name := "x", contents := { arr := 2, len := 4, cap := 4 } }) ∧
    Heap.read [[1, 2], [3], [1, 2, 3, 4], [4]] { arr := 2, len := 4, cap := 4 } = [1, 2, 3, 4] ∧
    (Collection.Append growDouble [[1, 2], [3], [1, 2, 3, 4], [4]]
        { name := "c", contents := { arr := 2, len := 3, cap := 4 } } "y" [5])
      = ([[1, 2], [3], [1, 2, 3, 5], [4], [5]],
         { name := "y", contents := { arr := 2, len := 4, cap := 4 } }) ∧
    Heap.read [[1, 2], [3], [1, 2, 3, 5], [4], [5]] { arr := 2, len := 4, cap := 4 }
      = [1, 2, 3, 5] ∧
    Heap.read [[1, 2], [3], [1, 2, 3, 5], [4], [5]] { arr := 2, len := 3, cap := 4 }
      = [1, 2, 3] := by
  decide

/-- C9 (failing input): `SetCallback(nil)` returns no error: taking the type of the zero
`reflect.Value` panics, before any check. -/
theorem setCallback_nil_panics (b : Binder) (c : Collection) :
    c.SetCallback b none = { ret := .error .typeOfZeroValue, binds := [], setterCalls := [] } :=
  rfl

/-- X1: for a non-nil argument `SetCallback` returns an error made by its own checks, without
binding and without calling the argument, when the argument is not a function, or takes fewer
than one or more than two inputs, or returns a value, or has an input that is not of function
type; for every other non-nil argument it calls `Bind`, once. -/
theorem setCallback_checks (b : Binder) (c : Collection) (s : GoValue) :
    (malformedSetter s = true →
      ∃ msg, c.SetCallback b (some s)
        = { ret := .ok (some (.errorf msg)), binds := [], setterCalls := [] }) ∧
    (malformedSetter s = false → (c.SetCallback b (some s)).binds.length = 1) := by
  constructor
  · intro h
    simp only [malformedSetter, Bool.or_eq_true, decide_eq_true_eq] at h
    unfold Collection.SetCallback
    simp only
    by_cases h1 : s.typ.kind ≠ Kind.Func
    · exact ⟨_, by rw [if_pos h1]⟩
    · rw [if_neg h1]
      by_cases h2 : s.typ.ins.length < 1 ∨ s.typ.ins.length > 2
      · exact ⟨_, by rw [if_pos h2]⟩
      · rw [if_neg h2]
        by_cases h3 : s.typ.numOut > 0
        · exact ⟨_, by rw [if_pos h3]⟩
        · rw [if_neg h3]
          have h4 : s.typ.ins.any (fun t => decide (t.kind ≠ Kind.Func)) = true := by
            rcases h with (((h | h) | h) | h) | h
            · exact absurd h h1
            · exact absurd (Or.inl h) h2
            · exact absurd (Or.inr h) h2
            · exact absurd h h3
            · exact h
          obtain ⟨msg, hmsg⟩ := checkInputs_some s.typ.ins 0 h4
          exact ⟨msg, by rw [hmsg]⟩
  · intro h
    simp only [malformedSetter, Bool.or_eq_false_iff, decide_eq_false_iff_not, not_not,
      not_lt] at h
    obtain ⟨⟨⟨⟨h1, h2⟩, h3⟩, h4⟩, h5⟩ := h
    have hall : s.typ.ins.all (fun t => decide (t.kind = Kind.Func)) = true := by
      rw [List.all_eq_true]
      intro t ht
      rw [List.any_eq_false] at h5
      simpa using h5 t ht
    have hchk := checkInputs_none s.typ.ins 0 hall
    unfold Collection.SetCallback
    simp only [h1, ne_eq, not_true_eq_false, if_false, hchk]
    have hn : ¬ (s.typ.ins.length < 1 ∨ s.typ.ins.length > 2) := by omega
    have hn3 : ¬ (s.typ.numOut > 0) := by omega
    rw [if_neg hn, if_neg hn3]
    cases hins : s.typ.ins with
    | nil => rw [hins] at h2; simp at h2
    | cons in0 more =>
      cases more with
      | nil =>
        simp only [List.length_singleton, OfNat.one_ne_ofNat, if_false]
        by_cases hb : (c.Bind b (reflectNew in0) none).1 = none
        · rw [if_pos hb]; unfold setterCall; split_ifs <;> rfl
        · rw [if_neg hb]; rfl
      | cons in1 rest =>
        rw [hins] at h3
        have : rest = [] := by
          cases rest with
          | nil => rfl
          | cons _ _ => simp at h3
        subst this
        simp only [List.length_cons, List.length_nil, if_true]
        by_cases hb : (c.Bind b (reflectNew in0) (some (reflectNew in1))).1 = none
        · rw [if_pos hb]; unfold setterCall; split_ifs <;> rfl
        · rw [if_neg hb]; rfl

/-- C10: for every well-formed setter (a non-nil function of one or two inputs of function
type and no output), `SetCallback` calls `Bind` once and returns exactly the error `Bind`
returned; when binding succeeds it calls the setter exactly once, with the generated invoke
function, followed by the generated init function when the setter takes two inputs; when
binding fails it never calls the setter. -/
theorem setCallback_calls_setter_once (b : Binder) (c : Collection) (s : GoValue)
    (in0 : ParamType) (more : List ParamType) (hwf : wellFormedSetter s = true)
    (hins : s.typ.ins = in0 :: more) :
    (c.SetCallback b (some s)).ret
      = .ok (c.Bind b (reflectNew in0) (more.head?.map reflectNew)).1 ∧
    (c.SetCallback b (some s)).binds = [(in0, more.head?)] ∧
    (∀ inv ini, b.doBind c in0 more.head? = .ok (inv, ini) →
      (c.Bind b (reflectNew in0) (more.head?.map reflectNew)).1 = none ∧
      (c.SetCallback b (some s)).setterCalls
        = [some inv :: (more.head?.map (fun _ => some ini)).toList]) ∧
    (∀ err, b.doBind c in0 more.head? = .error err →
      (c.Bind b (reflectNew in0) (more.head?.map reflectNew)).1
        = some (.njectError err (b.captureDoBindDebugging c in0 more.head?)) ∧
      (c.SetCallback b (some s)).setterCalls = []) := by
  have hlen : s.typ.ins.length ≤ 2 := by
    simp only [wellFormedSetter, Bool.and_eq_true, decide_eq_true_eq] at hwf
    exact hwf.1.1.1.2
  cases more with
  | nil =>
    rw [setCallback_one_input b c s in0 hwf hins]
    simp only [List.head?_nil, Option.map_none']
    refine ⟨by split_ifs <;> rfl, by split_ifs <;> rfl, ?_, ?_⟩
    · intro inv ini h
      have hb := bind_of_ok b c (reflectNew in0) none inv ini h
      rw [hb]
      simp
    · intro err h
      have hb := bind_of_error b c (reflectNew in0) none err h
      rw [hb]
      simp [reflectNew]
  | cons in1 rest =>
    have hrest : rest = [] := by
      cases rest with
      | nil => rfl
      | cons _ _ => rw [hins] at hlen; simp at hlen
    subst hrest
    rw [setCallback_two_inputs b c s in0 in1 hwf hins]
    simp only [List.head?_cons, Option.map_some']
    refine ⟨by split_ifs <;> rfl, by split_ifs <;> rfl, ?_, ?_⟩
    · intro inv ini h
      have hb := bind_of_ok b c (reflectNew in0) (some (reflectNew in1)) inv ini h
      rw [hb]
      simp
    · intro err h
      have hb := bind_of_error b c (reflectNew in0) (some (reflectNew in1)) err h
      rw [hb]
      simp [reflectNew]

theorem setCallback_calls_setter_once_witness :
    (sampleCollection.SetCallback okBinder (some twoFuncSetter)).ret
      = .ok (sampleCollection.Bind okBinder (reflectNew funcParam)
          (([funcParam] : List ParamType).head?.map reflectNew)).1 ∧
    (sampleCollection.SetCallback okBinder (some twoFuncSetter)).setterCalls
      = [[some 11, some 12]] ∧
    (sampleCollection.SetCallback failingBinder (some twoFuncSetter)).setterCalls = [] :=
  ⟨(setCallback_calls_setter_once okBinder sampleCollection twoFuncSetter funcParam [funcParam]
      (by decide) rfl).1,
   ((setCallback_calls_setter_once okBinder sampleCollection twoFuncSetter funcParam
      [funcParam] (by decide) rfl).2.2.1 11 12 rfl).2,
   ((setCallback_calls_setter_once failingBinder sampleCollection twoFuncSetter funcParam
      [funcParam] (by decide) rfl).2.2.2 "no provider for type" rfl).2⟩

/-- X2: on a heap that holds the contents of `c`, `c.Append(name, funcs...)` returns a
collection named `name` whose contents are the contents of `c` followed by the new providers
in the order given, and right after the call the contents of `c` are as they were. -/
theorem append_result (grow : Nat → Nat → Nat) (h : Heap) (c : Collection) (name : String)
    (funcs : List ProviderPtr) (hc : h.holds c.contents) :
    (c.Append grow h name funcs).2.name = name ∧
    (c.Append grow h name funcs).1.read (c.Append grow h name funcs).2.contents
      = h.read c.contents ++ funcs ∧
    (c.Append grow h name funcs).1.read c.contents = h.read c.contents :=
  append_reads grow h c name funcs hc

theorem append_result_witness :
    (Collection.Append growDouble [[1, 2, 3, 0]]
        { name := "c", contents := { arr := 0, len := 3, cap := 4 } } "x" [4]).2.name = "x" ∧
    Heap.read (Collection.Append growDouble [[1, 2, 3, 0]]
        { name := "c", contents := { arr := 0, len := 3, cap := 4 } } "x" [4]).1
      (Collection.Append growDouble [[1, 2, 3, 0]]
        { name := "c", contents := { arr := 0, len := 3, cap := 4 } } "x" [4]).2.contents
      = Heap.read [[1, 2, 3, 0]] { arr := 0, len := 3, cap := 4 } ++ [4] ∧
    Heap.read (Collection.Append growDouble [[1, 2, 3, 0]]
        { name := "c", contents := { arr := 0, len := 3, cap := 4 } } "x" [4]).1
      { arr := 0, len := 3, cap := 4 }
      = Heap.read [[1, 2, 3, 0]] { arr := 0, len := 3, cap := 4 } :=
  append_result growDouble [[1, 2, 3, 0]]
    { name := "c", contents := { arr := 0, len := 3, cap := 4 } } "x" [4]
    ⟨by decide, by decide, by decide⟩
/-- X3: when the slice of `c` has no spare cell (its length is its capacity), appending twice
to `c` gives two results that do not affect each other: after the second `Append` the
contents of the first result are still the contents of `c` followed by its own additions. -/
theorem append_twice_independent (grow : Nat → Nat → Nat) (h : Heap) (c : Collection)
    (name1 name2 : String) (funcs1 funcs2 : List ProviderPtr) (hc : h.holds c.contents)
    (hfull : c.contents.len = c.contents.cap) :
    (c.Append grow (c.Append grow h name1 funcs1).1 name2 funcs2).1.read
        (c.Append grow h name1 funcs1).2.contents
      = h.read c.contents ++ funcs1 ∧
    (c.Append grow (c.Append grow h name1 funcs1).1 name2 funcs2).1.read
        (c.Append grow (c.Append grow h name1 funcs1).1 name2 funcs2).2.contents
      = h.read c.contents ++ funcs2 := by
  have hc1 := holds_append_left h [funcs1] c.contents hc
  have hx := append_reads grow h c name1 funcs1 hc
  have hkeep := goAppend_keeps_holds grow (h ++ [funcs1]) c.contents funcs1 hc1
  have hres := goAppend_result_slice grow (h ++ [funcs1]) c.contents funcs1 hc1 hfull
  rw [append_unfold grow h c name1 funcs1] at hx ⊢
  simp only at hx hkeep hres ⊢
  have hy := append_reads grow _ c name2 funcs2 hkeep.1
  refine ⟨?_, ?_⟩
  · rw [append_unfold grow _ c name2 funcs2]
    simp only
    rw [goAppend_frame grow _ c.contents funcs2 (holds_append_left _ [funcs2] _ hkeep.1) _
      (by rw [List.length_append]; have := hres.1; omega) hres.2,
      read_append_left _ _ _ hres.1]
    exact hx.2.1
  · rw [hy.2.1, hx.2.2]

theorem append_twice_independent_witness :
    Heap.read (Collection.Append growDouble (Collection.Append growDouble [[1, 2, 3]]
        { name := "c", contents := { arr := 0, len := 3, cap := 3 } } "x" [4]).1
        { name := "c", contents := { arr := 0, len := 3, cap := 3 } } "y" [5]).1
      (Collection.Append growDouble [[1, 2, 3]]
        { name := "c", contents := { arr := 0, len := 3, cap := 3 } } "x" [4]).2.contents
      = Heap.read [[1, 2, 3]] { arr := 0, len := 3, cap := 3 } ++ [4] ∧
    Heap.read (Collection.Append growDouble (Collection.Append growDouble [[1, 2, 3]]
        { name := "c", contents := { arr := 0, len := 3, cap := 3 } } "x" [4]).1
        { name := "c", contents := { arr := 0, len := 3, cap := 3 } } "y" [5]).1
      (Collection.Append growDouble (Collection.Append growDouble [[1, 2, 3]]
        { name := "c", contents := { arr := 0, len := 3, cap := 3 } } "x" [4]).1
        { name := "c", contents := { arr := 0, len := 3, cap := 3 } } "y" [5]).2.contents
      = Heap.read [[1, 2, 3]] { arr := 0, len := 3, cap := 3 } ++ [5] :=
  append_twice_independent growDouble [[1, 2, 3]]
    { name := "c", contents := { arr := 0, len := 3, cap := 3 } } "x" "y" [4] [5]
    ⟨by decide, by decide, by decide⟩ rfl

/-- X4: for a cacher of arity `l ≤ 90`, an input list of length at most `l` whose values are
all interfaceable and one of which Go cannot hash makes the call panic at the map lookup:
the wrapped function is not invoked and the state is unchanged. -/
theorem unhashable_input_panics (id : Int) (fv : CanCall) (l : Int) (st : CacheState)
    (inp : List Value) (hl : l ≤ 90) (hok : interfaceOkay inp = true)
    (hlen : (inp.length : Int) ≤ l) (hbad : keyable inp = false) :
    (defineCacher id fv l).call st inp = (.error .unhashable, st) := by
  rw [defineCacher_call id fv l hl]
  exact cachedCall_unhashable _ fv st inp _ hok
    (fillKey_closed (tierSize l) inp hok (tierSize_ge l _ hl hlen))
    (by rw [keyHashable_padded]; exact hbad)

theorem unhashable_input_panics_witness :
    (defineCacher 0 countingFv 2).call (freshState []) [intValue 1, sliceValue]
      = (.error .unhashable, freshState []) :=
  unhashable_input_panics 0 countingFv 2 (freshState []) [intValue 1, sliceValue] (by decide)
    (by decide) (by decide) (by decide)

/-- C14: for every key array of `n` slots (in particular 3, 10, 30 and 90) and every input
list of length at most `n`, `fillKeyFromInputs` never indexes outside the key: it returns
whenever the inputs can be interfaced, which the cacher checks before the call, and the only
other outcome is the panic of `Interface`; the key it returns has `n` slots, holds the `i`-th
input value at every position `i` below the input length and the empty string at every
remaining position. Hence a cacher defined with arity `l ≤ 90` and called with at most `l`
inputs never fails with an index out of range. -/
theorem fillKey_never_out_of_range :
    (∀ (n : Nat) (inp : List Value), inp.length ≤ n →
      fillKeyFromInputs (zeroKey n) inp ≠ .error .indexOutOfRange ∧
      (interfaceOkay inp = true → ∃ key, fillKeyFromInputs (zeroKey n) inp = .ok key) ∧
      (interfaceOkay inp = false →
        fillKeyFromInputs (zeroKey n) inp = .error .cannotInterface) ∧
      ∀ key, fillKeyFromInputs (zeroKey n) inp = .ok key →
        key.length = n ∧
        (∀ i, i < inp.length → key[i]? = inp[i]?.map Value.val) ∧
        (∀ i, inp.length ≤ i → i < n → key[i]? = some (Iface.str ""))) ∧
    (∀ (id : Int) (fv : CanCall) (l : Int) (st : CacheState) (inp : List Value),
      l ≤ 90 → (inp.length : Int) ≤ l →
      ((defineCacher id fv l).call st inp).1 ≠ .error .indexOutOfRange) := by
  constructor
  · intro n inp hlen
    cases hok : interfaceOkay inp with
    | false =>
      have hf := fillKey_uninterfaceable n inp hok hlen
      refine ⟨by rw [hf]; simp, by simp, fun _ => hf, ?_⟩
      intro key hkey
      rw [hf] at hkey
      simp at hkey
    | true =>
      have hf := fillKey_closed n inp hok hlen
      refine ⟨by rw [hf]; simp, fun _ => ⟨_, hf⟩, by simp, ?_⟩
      intro key hkey
      rw [hf] at hkey
      injection hkey with hkey
      subst hkey
      exact ⟨paddedKey_length n inp hlen, fun i hi => paddedKey_input n inp i hi,
        fun i h1 h2 => paddedKey_rest n inp i h1 h2⟩
  · intro id fv l st inp hl hlen
    rw [defineCacher_call id fv l hl]
    exact cachedCall_no_index_panic _ fv st inp (tierSize_ge l _ hl hlen)

theorem fillKey_never_out_of_range_witness :
    fillKeyFromInputs (zeroKey 3) [intValue 5, strValue "x"]
      = .ok [Iface.int 5, Iface.str "x", Iface.str ""] ∧
    fillKeyFromInputs (zeroKey 3) [intValue 5, strValue "x"] ≠ .error .indexOutOfRange ∧
    ((defineCacher 0 countingFv 2).call (freshState []) [intValue 5, sliceValue]).1
      ≠ .error .indexOutOfRange :=
  ⟨by decide, (fillKey_never_out_of_range.1 3 [intValue 5, strValue "x"] (by decide)).1,
   fillKey_never_out_of_range.2 0 countingFv 2 (freshState []) [intValue 5, sliceValue]
     (by decide) (by decide)⟩

/-- X5: the bound on the input length is needed: with more interfaceable inputs than key
slots, `fillKeyFromInputs` fails with an index out of range. -/
theorem fillKey_overflow (n : Nat) (inp : List Value) (hok : interfaceOkay inp = true)
    (hlen : n < inp.length) :
    fillKeyFromInputs (zeroKey n) inp = .error .indexOutOfRange := by
  simp [fillKeyFromInputs, fillInputs_overflow inp (zeroKey n) 0 hok
    (by simpa [zeroKey] using hlen) (Nat.zero_le _)]

theorem fillKey_overflow_witness :
    fillKeyFromInputs (zeroKey 3) [intValue 1, intValue 2, intValue 3, intValue 4]
      = .error .indexOutOfRange :=
  fillKey_overflow 3 [intValue 1, intValue 2, intValue 3, intValue 4] (by decide) (by decide)

/-- C13: for every list `m` of middleware and every handler `h`, `combineMiddleware(m)`
returns a function (no index is out of range) and `combineMiddleware(m)(h)` is
`m[0](m[1](... m[n-1](h) ...))`, the right fold of application over `m` starting from `h`,
so the first middleware listed is the outermost. For the empty list it returns `h` itself,
for a one-element list `m[0]`: the special cases give what the right fold computed by the
general loop gives, and on a one-element list the general loop returns `m[0]` as well. -/
theorem combineMiddleware_right_fold {H : Type} :
    (∀ m : List (H → H), ∃ g, combineMiddleware m = some g ∧
      ∀ h, g h = m.foldr (fun f acc => f acc) h) ∧
    (∃ g, combineMiddleware ([] : List (H → H)) = some g ∧ ∀ h, g h = h) ∧
    (∀ f : H → H, combineMiddleware [f] = some f ∧ combineGeneral [f] = some f) :=
  ⟨combineMiddleware_fold, ⟨fun h => h, rfl, fun _ => rfl⟩, fun _ => ⟨rfl, rfl⟩⟩

theorem combineMiddleware_right_fold_witness :
    ∃ g, combineMiddleware sampleMiddleware = some g ∧
      ∀ h, g h = sampleMiddleware.foldr (fun f acc => f acc) h :=
  combineMiddleware_right_fold.1 sampleMiddleware

/-- C11: `RecoverInterface` and `RecoverStack` undo `SetErrorOnPanic`. For every recovered
panic value `r` (not nil: for nil nothing is stored), the error that `SetErrorOnPanic`
stores, also when wrapped in any finite number of `Cause`/`Unwrap` layers, makes
`RecoverInterface` return `r` and `RecoverStack` return the captured stack; for every error
from which no `panicError` can be reached through `Cause` and `Unwrap` (nil too),
`RecoverInterface` returns nil and `RecoverStack` returns the empty string. -/
theorem recover_undoes_setErrorOnPanic :
    (∀ (sprint : Iface → String) (stack : String) (r : Iface) (ep : ErrorValue)
        (log : BasicLogger) (layers : List Layer), r ≠ Iface.nil →
      RecoverInterface (wrapAll layers (SetErrorOnPanic sprint stack r ep log).1) = r ∧
      RecoverStack (wrapAll layers (SetErrorOnPanic sprint stack r ep log).1) = stack) ∧
    (∀ err : ErrorValue, err.hasPanic = false →
      RecoverInterface err = Iface.nil ∧ RecoverStack err = "") ∧
    RecoverInterface ErrorValue.nil = Iface.nil ∧ RecoverStack ErrorValue.nil = "" := by
  refine ⟨?_, ?_, rfl, rfl⟩
  · intro sprint stack r ep log layers hr
    simp [RecoverInterface, RecoverStack, isPanicError_wrapAll,
      setErrorOnPanic_stored sprint stack r ep log hr, isPanicError]
  · intro err h
    simp [RecoverInterface, RecoverStack, isPanicError_none err h]

theorem recover_undoes_setErrorOnPanic_witness :
    RecoverInterface (wrapAll [.unwraper, .withStack, .causer]
        (SetErrorOnPanic (fun _ => "boom") "stack of the panic" (Iface.str "boom")
          ErrorValue.nil quietLogger).1) = Iface.str "boom" ∧
    RecoverStack (wrapAll [.unwraper, .withStack, .causer]
        (SetErrorOnPanic (fun _ => "boom") "stack of the panic" (Iface.str "boom")
          ErrorValue.nil quietLogger).1) = "stack of the panic" ∧
    RecoverInterface (.causer (.both (.plain "a") (.unwraper .nil))) = Iface.nil ∧
    RecoverStack (.causer (.both (.plain "a") (.unwraper .nil))) = "" :=
  ⟨(recover_undoes_setErrorOnPanic.1 (fun _ => "boom") "stack of the panic"
      (Iface.str "boom") ErrorValue.nil quietLogger [.unwraper, .withStack, .causer]
      (by decide)).1,
   (recover_undoes_setErrorOnPanic.1 (fun _ => "boom") "stack of the panic"
      (Iface.str "boom") ErrorValue.nil quietLogger [.unwraper, .withStack, .causer]
      (by decide)).2,
   (recover_undoes_setErrorOnPanic.2.1 (.causer (.both (.plain "a") (.unwraper .nil)))
      (by decide)).1,
   (recover_undoes_setErrorOnPanic.2.1 (.causer (.both (.plain "a") (.unwraper .nil)))
      (by decide)).2⟩

/-- C12: the static segment executes exactly once however often the initializer is called.
For every bound chain, after the first call of the initializer (with arguments `first`),
every sequence of further calls leaves the log of the static segment at that one execution;
every further call of the initializer returns the values of the first call whatever its
arguments, and every call of the invoker runs the run segment on the values the first call
of the initializer computed. -/
theorem static_segment_runs_once (c : BoundChain) (log : List (List Value))
    (first : List Value) (calls : List ChainCall) :
    runChain c { staticRuns := log, cached := none } (.init first :: calls)
      = (some (c.staticSegment log first)
           :: calls.map (afterInit c (c.staticSegment log first)),
         { staticRuns := log ++ [first], cached := some (c.staticSegment log first) }) := by
  simp [runChain, BoundChain.initFunc, runChain_initialized]

theorem static_segment_runs_once_witness :
    runChain exampleChain { staticRuns := [], cached := none }
        [.init [strValue "string comes from init"],
         .init [strValue "ignored since invoke is done"], .invoke [], .invoke []]
      = ([some [intValue 0, intValue 22, strValue "string comes from init"],
          some [intValue 0, intValue 22, strValue "string comes from init"],
          some [intValue 0, intValue 22, strValue "string comes from init"],
          some [intValue 0, intValue 22, strValue "string comes from init"]],
         { staticRuns := [[strValue "string comes from init"]],
           cached := some [intValue 0, intValue 22, strValue "string comes from init"] }) := by
  have h := static_segment_runs_once exampleChain [] [strValue "string comes from init"]
    [.init [strValue "ignored since invoke is done"], .invoke [], .invoke []]
  have hv : exampleChain.staticSegment [] [strValue "string comes from init"]
      = [intValue 0, intValue 22, strValue "string comes from init"] := by decide
  rw [hv] at h
  exact h

end Nject
